import Mathlib

/-!
# sand: self-destructing file uploads

A shallow embedding of `sand.go`: the safe-name check, the blob path, the
record encoding, the metadata store and the three request handlers
(`/info/:name`, `/download/:name`, `POST /upload`), followed by the
properties of the specification that were checked against them.
-/

namespace Sand

/-! ## Go base types -/

/-- Two's-complement wrap-around of Go `int64` arithmetic. -/
def wrapInt64 (x : Int) : Int :=
  (x + 9223372036854775808) % 18446744073709551616 - 9223372036854775808

/-- Membership in the range of `int64`. -/
def IsInt64 (x : Int) : Prop :=
  -9223372036854775808 ≤ x ∧ x ≤ 9223372036854775807

instance (x : Int) : Decidable (IsInt64 x) := by
  unfold IsInt64; exact inferInstance

/-- The bytes of a file. -/
abbrev Bytes := List Nat

/-! ## `isSafeName` (sand.go 79-87) -/

/-- The condition tested on each rune in the loop body of `isSafeName`. -/
def isSafeRune (c : Char) : Bool :=
  c == '.' || c == '_' || c == '-' ||
    ('0' ≤ c && c ≤ '9') || ('a' ≤ c && c ≤ 'z') || ('A' ≤ c && c ≤ 'Z')

/-- The `for _, c := range *name` loop: the first rune failing the test
returns false, the end of the string returns true. -/
def isSafeNameLoop : List Char → Bool
  | [] => true
  | c :: cs => if !(isSafeRune c) then false else isSafeNameLoop cs

/-- `func isSafeName(name *string) bool`.  The name is taken as the runes
that `range` yields; a byte that is not valid UTF-8 ranges as U+FFFD, which
fails the test like every other rune outside the class. -/
def isSafeName (name : String) : Bool :=
  isSafeNameLoop name.data

/-! ## `filepath.Join` on a Unix system

`path/filepath` is the Go standard library.  `Clean` is modelled on path
elements: empty elements and `.` are dropped, `..` removes the element
before it, a `..` that has nothing to remove is kept on a relative path and
dropped on a rooted one, and the empty result is `.`. -/

/-- Split a path at every `/`. -/
def splitSlash : List Char → List (List Char)
  | [] => [[]]
  | c :: cs =>
    if c = '/' then [] :: splitSlash cs
    else
      match splitSlash cs with
      | [] => [[c]]
      | h :: t => (c :: h) :: t

/-- One path element processed by `Clean`; the stack holds the elements
written so far, the last one first. -/
def cleanStep (rooted : Bool) (stack : List (List Char)) (comp : List Char) :
    List (List Char) :=
  if comp = [] ∨ comp = ['.'] then stack
  else if comp = ['.', '.'] then
    match stack with
    | [] => if rooted then [] else [comp]
    | top :: rest =>
      if top = ['.', '.'] then (if rooted then stack else comp :: stack) else rest
  else comp :: stack

/-- Elements joined by `/`. -/
def joinSlash : List (List Char) → List Char
  | [] => []
  | [x] => x
  | x :: y :: rest => x ++ '/' :: joinSlash (y :: rest)

/-- `filepath.Clean` on the runes of a path. -/
def cleanChars (path : List Char) : List Char :=
  if path = [] then ['.']
  else
    let rooted : Bool := path.head? == some '/'
    let stack := (splitSlash path).foldl (cleanStep rooted) []
    let body := joinSlash stack.reverse
    let out := if rooted then '/' :: body else body
    if out = [] then ['.'] else out

/-- `filepath.Clean`. -/
def Clean (path : String) : String :=
  ⟨cleanChars path.data⟩

/-- `filepath.Join(a, b)`: the first non-empty element onwards, joined by
`/` and cleaned; the empty string when both are empty. -/
def Join (a b : String) : String :=
  if a.data ≠ [] then ⟨cleanChars (a.data ++ '/' :: b.data)⟩
  else if b.data ≠ [] then ⟨cleanChars b.data⟩
  else ""

/-- `var UPLOAD_DIR = getenv("UPLOAD_DIR", "./upload")`, at its fallback. -/
def UPLOAD_DIR : String := "./upload"

/-! ## Records and their encoding -/

/-- `type FileInfo struct`. -/
structure FileInfo where
  Name : String
  RawFilename : String
  UploadTimeStamp : Int
  Lifespan : Int
  DownloadQuota : Int
  Size : Int
deriving DecidableEq

/-- The zero value `FileInfo{}` that `UnmarshalToFileInfo` decodes into. -/
def FileInfo.zero : FileInfo := ⟨"", "", 0, 0, 0, 0⟩

/-- A field value of a gob stream: `FileInfo` has string and `int64` fields. -/
inductive GobValue
  | str (s : String)
  | int (i : Int)
deriving DecidableEq

/-- The value part of a gob stream for a struct: the (field number, value)
pairs it transmits.  `encoding/gob` is the Go standard library; its struct
encoding sends the fields in order and omits every field holding the zero
value of its type. -/
abbrev Encoded := List (Nat × GobValue)

/-- A string field as gob sends it. -/
def gobStringField (n : Nat) (s : String) : Encoded :=
  if s = "" then [] else [(n, GobValue.str s)]

/-- An `int64` field as gob sends it. -/
def gobIntField (n : Nat) (i : Int) : Encoded :=
  if i = 0 then [] else [(n, GobValue.int i)]

/-- `func (info *FileInfo) Marshal() (string, error)`: the gob encoding of
the six exported fields; the encoder writes to a memory buffer and its
error is nil. -/
def FileInfo.Marshal (info : FileInfo) : Encoded × Option String :=
  (gobStringField 0 info.Name ++ gobStringField 1 info.RawFilename ++
    gobIntField 2 info.UploadTimeStamp ++ gobIntField 3 info.Lifespan ++
    gobIntField 4 info.DownloadQuota ++ gobIntField 5 info.Size, none)

/-- The gob decoder storing one received field into the target struct. -/
def gobDecodeField (info : FileInfo) : Nat × GobValue → Except String FileInfo
  | (0, GobValue.str s) => .ok { info with Name := s }
  | (1, GobValue.str s) => .ok { info with RawFilename := s }
  | (2, GobValue.int i) => .ok { info with UploadTimeStamp := i }
  | (3, GobValue.int i) => .ok { info with Lifespan := i }
  | (4, GobValue.int i) => .ok { info with DownloadQuota := i }
  | (5, GobValue.int i) => .ok { info with Size := i }
  | _ => .error "gob: type mismatch"

/-- The gob decoder running over the received fields. -/
def gobDecodeFields : FileInfo → Encoded → Except String FileInfo
  | info, [] => .ok info
  | info, f :: rest =>
    match gobDecodeField info f with
    | .error e => .error e
    | .ok next => gobDecodeFields next rest

/-- `func UnmarshalToFileInfo(str string) (FileInfo, error)`: decode into
`FileInfo{}`. -/
def UnmarshalToFileInfo (str : Encoded) : Except String FileInfo :=
  gobDecodeFields FileInfo.zero str

/-! ## Time -/

/-- The constant `unixToInternal` of package `time`: the seconds from year 1
to 1970. -/
def unixToInternal : Int := 62135596800

/-- A reading of the clock by `time.Now()`: Unix seconds (an `int64`) and the
nanoseconds within the second.  Package `time` holds an instant by its
seconds counted from year 1, `sec + unixToInternal`, in an `int64`; for a
clock reading they fit. -/
structure Time where
  sec : Int
  nsec : Nat
  sec_int64 : IsInt64 sec
  sec_fits : sec + 62135596800 ≤ 9223372036854775807
  nsec_lt : nsec < 1000000000

/-- `t.Unix()`. -/
def Time.Unix (t : Time) : Int := t.sec

/-- A `time.Duration` that does not fit in `int64` nanoseconds is replaced
by the minimum or maximum duration, as `Time.Sub` documents. -/
def saturateDuration (d : Int) : Int :=
  if d < -9223372036854775808 then -9223372036854775808
  else if d > 9223372036854775807 then 9223372036854775807
  else d

/-- `time.Unix(sec, 0).Sub(u)` in nanoseconds.  `time.Unix` holds
`sec + unixToInternal` in an `int64`, which wraps around; `Sub` returns the
difference of the two instants, or the minimum or maximum duration when the
difference does not fit. -/
def unixSub (sec : Int) (u : Time) : Int :=
  saturateDuration
    ((wrapInt64 (sec + unixToInternal) - (u.sec + unixToInternal)) * 1000000000 -
      (u.nsec : Int))

/-- Go's `/` on integers, for a positive divisor: the quotient truncated
towards zero. -/
def goDiv (a b : Int) : Int :=
  if 0 ≤ a then a / b else -((-a) / b)

/-- Go's `%` on integers, for a positive divisor. -/
def goMod (a b : Int) : Int :=
  a - b * goDiv a b

/-! ## The Metadata Store (Redis through go-redis v8)

The store is the list of its keys with their values and time-to-live.  A
key whose time-to-live runs out is removed by the store itself, which is the
step `storeExpire` below; the connection is taken to be healthy, so the only
error of `Get` is `redis.Nil` and `Del` and `Set` return none. -/

/-- A stored value and the time-to-live attached to its key, in
milliseconds; `none` is a key that never expires. -/
structure Entry where
  value : Encoded
  ttl : Option Int
deriving DecidableEq

/-- The keys of the store. -/
abbrev Rdb := List (String × Entry)

/-- `redis.KeepTTL`. -/
def KeepTTL : Int := -1

/-- `usePrecise` of go-redis: whether a duration is sent in milliseconds. -/
def usePrecise (dur : Int) : Bool :=
  decide (dur < 1000000000) || decide (goMod dur 1000000000 ≠ 0)

/-- `formatMs` of go-redis: whole milliseconds, a positive duration below
one millisecond being raised to 1. -/
def formatMs (dur : Int) : Int :=
  if 0 < dur ∧ dur < 1000000 then 1 else goDiv dur 1000000

/-- `formatSec` of go-redis: whole seconds, a positive duration below one
second being raised to 1. -/
def formatSec (dur : Int) : Int :=
  if 0 < dur ∧ dur < 1000000000 then 1 else goDiv dur 1000000000

/-- The milliseconds that the `PX n` or `EX n` argument go-redis sends for
an expiration stands for. -/
def expireMillis (dur : Int) : Int :=
  if usePrecise dur then formatMs dur else formatSec dur * 1000

/-- `rdb.Get(ctx, key)`: `none` stands for the error `redis.Nil`. -/
def rdbGet : Rdb → String → Option Entry
  | [], _ => none
  | (k, e) :: rest, key => if k = key then some e else rdbGet rest key

/-- `rdb.Del(ctx, key)`: no error when the key does not exist. -/
def rdbDel : Rdb → String → Rdb
  | [], _ => []
  | (k, e) :: rest, key => if k = key then rdbDel rest key else (k, e) :: rdbDel rest key

/-- `rdb.Set(ctx, key, value, expiration)`: a positive expiration is sent as
`PX` or `EX` and is the new time-to-live, `KeepTTL` keeps the one the key
has, anything else sets none. -/
def rdbSet (db : Rdb) (key : String) (value : Encoded) (expiration : Int) : Rdb :=
  let ttl : Option Int :=
    if expiration > 0 then some (expireMillis expiration)
    else if expiration = KeepTTL then
      match rdbGet db key with
      | some e => e.ttl
      | none => none
    else none
  (key, ⟨value, ttl⟩) :: rdbDel db key

/-- `rdb.SetNX(ctx, key, value, expiration).Result()`: the boolean, the
error and the store afterwards.  Expiration 0 is a plain `SETNX`, `KeepTTL`
is `SET ... KEEPTTL NX`, every other value is sent as `SET ... PX/EX n NX`,
which Redis refuses when the time is not positive. -/
def rdbSetNX (db : Rdb) (key : String) (value : Encoded) (expiration : Int) :
    (Bool × Option String) × Rdb :=
  if expiration ≠ 0 ∧ expiration ≠ KeepTTL ∧ expireMillis expiration ≤ 0 then
    ((false, some "ERR invalid expire time in set"), db)
  else
    match rdbGet db key with
    | some _ => ((false, none), db)
    | none =>
      let ttl : Option Int :=
        if expiration ≠ 0 ∧ expiration ≠ KeepTTL then some (expireMillis expiration)
        else none
      ((true, none), (key, ⟨value, ttl⟩) :: db)

/-! ## The Blob Store (the local file system)

Regular files by their cleaned path.  The working directory and the storage
root exist as directories before the server starts and the directory tree
does not change. -/

/-- The regular files on disk. -/
abbrev Disk := List (String × Bytes)

/-- The directories a joined blob path can denote: the storage root and its
parent. -/
def isDirectory (path : String) : Bool :=
  path == Clean UPLOAD_DIR || path == Join UPLOAD_DIR ".."

/-- The content of the regular file at a path. -/
def diskRead : Disk → String → Option Bytes
  | [], _ => none
  | (p, b) :: rest, path => if p = path then some b else diskRead rest path

/-- `os.Remove(path)` on regular files; a missing file is an error that
`DeleteFileFromDisk` only prints. -/
def diskRemove : Disk → String → Disk
  | [], _ => []
  | (p, b) :: rest, path =>
    if p = path then diskRemove rest path else (p, b) :: diskRemove rest path

/-- `os.Create(path)` followed by `io.Copy`: the file is created or
truncated and receives the content. -/
def diskWrite (d : Disk) (path : String) (content : Bytes) : Disk :=
  (path, content) :: diskRemove d path

/-- `const MAX_UPLOAD_SIZE = 2 << 20`. -/
def MAX_UPLOAD_SIZE : Int := 2097152

/-- A `multipart.FileHeader`: the client file name and the bytes of the
part; `Size` is their number. -/
structure FileHeader where
  Filename : String
  content : Bytes
deriving DecidableEq

/-- `file.Size`. -/
def FileHeader.Size (file : FileHeader) : Int := (file.content.length : Int)

/-- `func SaveUploadedFile(file *multipart.FileHeader, dst string) (int64, error)`:
the bytes written and the disk afterwards, or the error. -/
def SaveUploadedFile (file : FileHeader) (dst : String) (disk : Disk) :
    Except String (Int × Disk) :=
  if file.Size > MAX_UPLOAD_SIZE then .error "File too large (> 2 MB)"
  else if isDirectory dst then .error ("open " ++ dst ++ ": is a directory")
  else .ok ((file.content.length : Int), diskWrite disk dst file.content)

/-- `func DeleteFileFromDisk(name string)`. -/
def DeleteFileFromDisk (name : String) (disk : Disk) : Disk :=
  diskRemove disk (Join UPLOAD_DIR name)

/-! ## Requests, responses and the two stores together -/

/-- What a handler sends back. -/
inductive Response
  /-- `SuccessResponse`: status 200, `"status": "success"` and the six fields. -/
  | success (data : FileInfo)
  /-- `FailResponse`: status 404, `"status": "fail"`. -/
  | fail (message : String)
  /-- `ErrorResponse`: status 500, `"status": "error"`. -/
  | error (message : String)
  /-- `c.FileAttachment` of an existing file: status 200 and its bytes as an
  attachment of the given name. -/
  | attachment (filename : String) (body : Bytes)
  /-- `c.FileAttachment` of a missing file: the plain 404 of `http.ServeFile`. -/
  | missingFile
  /-- `http.ServeFile` on a URL path with a `..` element: status 400. -/
  | badRequest (message : String)
  /-- `http.ServeFile` on a URL path ending in `/index.html`: status 301 to
  the given location, no body. -/
  | redirect (location : String)
  /-- `http.ServeFile` on a directory: its index page or its listing. -/
  | directory
  /-- `http.ServeFile` on a request with a `Range` or an `If-...` header:
  status 200, 206, 304, 412 or 416, with all, part or none of the bytes. -/
  | conditional (filename : String) (body : Bytes)
  /-- A run-time panic inside the handler. -/
  | panicked (reason : String)
deriving DecidableEq

/-- The Metadata Store, the Blob Store, and the names of expired keys that
the store has published and `GoRoutineDeleteSubscriber` has not received
yet, the oldest first. -/
structure World where
  rdb : Rdb
  disk : Disk
  pending : List String
deriving DecidableEq

/-- Both stores empty, no message under way. -/
def World.init : World := ⟨[], [], []⟩

/-- A `GET /download/:name` request: the `:name` of its URL path, and
whether it carries a `Range` or an `If-...` header. -/
structure DownloadRequest where
  name : String
  conditional : Bool
deriving DecidableEq

/-- `c.Request.URL.Path` of a download request. -/
def DownloadRequest.urlPath (req : DownloadRequest) : String :=
  "/download/" ++ req.name

/-- The fields of a `POST /upload` form as received; `none` is a missing
field.  `life` and `quota` are the integers their text denotes. -/
structure UploadRequest where
  name : Option String
  file : Option FileHeader
  life : Option Int
  quota : Option Int

/-- `type UploadForm struct`. -/
structure UploadForm where
  Name : String
  RawFile : FileHeader
  Lifespan : Int
  DownloadQuota : Int

/-- An `int64` form field with its `default=` value; a number out of range
is the error of `strconv.ParseInt`. -/
def bindInt64 (field : Option Int) (dflt : Int) : Except String Int :=
  match field with
  | none => .ok dflt
  | some n => if IsInt64 n then .ok n else .error "value out of range"

/-- `c.ShouldBind(&form)`: `life` defaults to -1 and `quota` to 1, `name`
and `file` are `binding:"required"`, which refuses the empty name and the
missing file. -/
def ShouldBind (req : UploadRequest) : Except String UploadForm :=
  match bindInt64 req.life (-1), bindInt64 req.quota 1 with
  | .error e, _ => .error e
  | _, .error e => .error e
  | .ok life, .ok quota =>
    match req.name, req.file with
    | some name, some file =>
      if name = "" then .error "Field validation for Name failed on the required tag"
      else .ok ⟨name, file, life, quota⟩
    | none, _ => .error "Field validation for Name failed on the required tag"
    | _, none => .error "Field validation for RawFile failed on the required tag"

/-- `err.Error()` on a Go `error`, `none` being the nil error: the message,
or the panic of calling a method on nil. -/
def errorText : Option String → Except String String
  | some msg => .ok msg
  | none => .error "runtime error: invalid memory address or nil pointer dereference"

/-! ## The handlers (sand.go 111-124, 154-268) -/

/-- `func FetchFileInfo(c *gin.Context)`: the record under `c.Param("name")`
or the response that aborts the request. -/
def FetchFileInfo (name : String) (w : World) : Except Response FileInfo :=
  match rdbGet w.rdb name with
  | none => .error (Response.fail "Expired or quota exceeded!")
  | some e =>
    match UnmarshalToFileInfo e.value with
    | .error err => .error (Response.error ("Fail to unmarshal the data" ++ err))
    | .ok info => .ok info

/-- `GET /info/:name`. -/
def infoHandler (name : String) (w : World) : Response :=
  match FetchFileInfo name w with
  | .error r => r
  | .ok info => Response.success info

/-- Split a path at every slash and every backslash (code point 92), the
separators of `isSlashRune` in `net/http`. -/
def splitSlashRunes : List Char → List (List Char)
  | [] => [[]]
  | c :: cs =>
    if c = '/' ∨ c = Char.ofNat 92 then [] :: splitSlashRunes cs
    else
      match splitSlashRunes cs with
      | [] => [[c]]
      | h :: t => (c :: h) :: t

/-- `containsDotDot` of `net/http`: whether an element of the path is `..`. -/
def containsDotDot (v : String) : Bool :=
  (splitSlashRunes v.data).any (fun ent => decide (ent = ['.', '.']))

/-- `strings.HasSuffix`. -/
def hasSuffix (s suffix : String) : Bool :=
  suffix.data.isSuffixOf s.data

/-- `c.FileAttachment(filepath, filename)`: the `Content-Disposition` header
for the file name, then `http.ServeFile(c.Writer, c.Request, filepath)`,
which refuses a URL path with a `..` element, redirects a URL path ending in
`/index.html` to `./`, answers 404 for a missing file, and otherwise serves
the content as the headers of the request ask. -/
def FileAttachment (req : DownloadRequest) (disk : Disk) (filepath filename : String) :
    Response :=
  if containsDotDot req.urlPath then Response.badRequest "invalid URL path"
  else if hasSuffix req.urlPath "/index.html" then Response.redirect "./"
  else if isDirectory filepath then Response.directory
  else
    match diskRead disk filepath with
    | none => Response.missingFile
    | some body =>
      if req.conditional then Response.conditional filename body
      else Response.attachment filename body

/-- The test that refuses a download (sand.go 168), at `time.Now()`. -/
def downloadRefused (now : Time) (info : FileInfo) : Bool :=
  decide (info.DownloadQuota ≤ 0) ||
    !(info.Lifespan == -1 ||
      decide (now.Unix < wrapInt64 (info.UploadTimeStamp + info.Lifespan)))

/-- `GET /download/:name`, `now` being the value of `time.Now()`. -/
def downloadHandler (now : Time) (req : DownloadRequest) (w : World) : Response × World :=
  match FetchFileInfo req.name w with
  | .error r => (r, w)
  | .ok fetched =>
    if downloadRefused now fetched then
      (Response.fail "Expired or quota exceeded!", w)
    else
      let info : FileInfo :=
        { fetched with DownloadQuota := wrapInt64 (fetched.DownloadQuota - 1) }
      if info.DownloadQuota ≤ 0 then
        let rdb := rdbDel w.rdb info.Name
        let resp := FileAttachment req w.disk (Join UPLOAD_DIR info.Name) info.RawFilename
        (resp, { w with rdb := rdb, disk := DeleteFileFromDisk info.Name w.disk })
      else
        match info.Marshal with
        | (_, some err) => (Response.error ("Marshal failed: " ++ err), w)
        | (encodedStr, none) =>
          let rdb := rdbSet w.rdb info.Name encodedStr KeepTTL
          (FileAttachment req w.disk (Join UPLOAD_DIR info.Name) info.RawFilename,
            { w with rdb := rdb })

/-- The expiration handed to `SetNX` (sand.go 245-250). -/
def expirationNs (now : Time) (info : FileInfo) : Int :=
  if info.Lifespan = -1 then 0
  else unixSub (wrapInt64 (info.UploadTimeStamp + info.Lifespan)) now

/-- `POST /upload`, `now` being the value of `time.Now()` on entry.  The
handler reaches the store twice, at `Get` and at `SetNX`; `others` is what
the requests served by other workers do to the stores in between. -/
def uploadHandlerWith (others : World → World) (now : Time) (req : UploadRequest)
    (w : World) : Response × World :=
  match ShouldBind req with
  | .error err => (Response.fail ("Bad request: " ++ err), w)
  | .ok form =>
    if !isSafeName form.Name then
      (Response.fail ("Illegal name: " ++ form.Name), w)
    else if !(form.Lifespan == -1 || decide (form.Lifespan ≥ 1)) then
      (Response.fail "The expiration must be later than now", w)
    else
      match rdbGet w.rdb form.Name with
      | some _ => (Response.fail "The key already exists!", w)
      | none =>
        let w := others w
        match SaveUploadedFile form.RawFile (Join UPLOAD_DIR form.Name) w.disk with
        | .error err => (Response.error ("Saving uploaded file failed:" ++ err), w)
        | .ok (written, disk) =>
          let info : FileInfo :=
            { Name := form.Name
              RawFilename := form.RawFile.Filename
              UploadTimeStamp := now.Unix
              Lifespan := form.Lifespan
              DownloadQuota := form.DownloadQuota
              Size := written }
          match info.Marshal with
          | (_, some err) =>
            (Response.error ("Marshal failed: " ++ err), { w with disk := disk })
          | (encodedStr, none) =>
            match rdbSetNX w.rdb info.Name encodedStr (expirationNs now info) with
            | ((set, err), rdb) =>
              if err ≠ none then
                match errorText err with
                | .error reason => (Response.panicked reason, { w with rdb := rdb, disk := disk })
                | .ok msg =>
                  (Response.error ("Update failed:" ++ msg), { w with rdb := rdb, disk := disk })
              else if set = false then
                match errorText err with
                | .error reason => (Response.panicked reason, { w with rdb := rdb, disk := disk })
                | .ok msg =>
                  (Response.error ("Update failed (race condition):" ++ msg),
                    { w with rdb := rdb, disk := disk })
              else (Response.success info, { w with rdb := rdb, disk := disk })

/-- `POST /upload` with no other request in between. -/
def uploadHandler (now : Time) (req : UploadRequest) (w : World) : Response × World :=
  uploadHandlerWith id now req w

/-- The store removing a key whose time-to-live ran out and publishing its
name on the `expired` channel. -/
def storeExpire (name : String) (w : World) : World :=
  match rdbGet w.rdb name with
  | some ⟨_, some _⟩ => { w with rdb := rdbDel w.rdb name, pending := w.pending ++ [name] }
  | _ => w

/-- `func GoRoutineDeleteSubscriber()` receiving the next message of the
channel: it deletes the file of that name. -/
def subscriberStep (w : World) : World :=
  match w.pending with
  | [] => w
  | name :: rest => { w with disk := DeleteFileFromDisk name w.disk, pending := rest }

/-- The `DownloadQuota` of the record stored under a name, if there is one. -/
def storedQuota (name : String) (w : World) : Option Int :=
  match FetchFileInfo name w with
  | .ok info => some info.DownloadQuota
  | .error _ => none

/-- The same download request served at the given instants, one after the
other: the response of each and the quota stored under the name after it. -/
def downloadTrace (req : DownloadRequest) :
    List Time → World → List (Response × Option Int)
  | [], _ => []
  | t :: ts, w =>
    let step := downloadHandler t req w
    (step.1, storedQuota req.name step.2) :: downloadTrace req ts step.2

/-- The record `POST /upload` builds (sand.go 232-239). -/
def uploadInfo (now : Time) (form : UploadForm) : FileInfo :=
  { Name := form.Name
    RawFilename := form.RawFile.Filename
    UploadTimeStamp := now.Unix
    Lifespan := form.Lifespan
    DownloadQuota := form.DownloadQuota
    Size := (form.RawFile.content.length : Int) }

/-! ## Reachable stores and their invariant -/

/-- A name that can key a record: safe, not empty, not a dot name. -/
def GoodName (k : String) : Prop :=
  isSafeName k = true ∧ k ≠ "" ∧ k ≠ "." ∧ k ≠ ".."

/-- What every stored record satisfies: `int64` fields, a lifespan of -1
or at least 1, and an expiry second that fits in `int64`. -/
def GoodRecord (info : FileInfo) : Prop :=
  IsInt64 info.UploadTimeStamp ∧ IsInt64 info.Lifespan ∧ IsInt64 info.DownloadQuota ∧
    (info.Lifespan = -1 ∨
      (1 ≤ info.Lifespan ∧ info.UploadTimeStamp + info.Lifespan ≤ 9223372036854775807))

/-- The invariant of the Metadata Store: every key holds the encoding of a
good record of that name. -/
def Inv (w : World) : Prop :=
  ∀ k e, rdbGet w.rdb k = some e →
    ∃ info, e.value = info.Marshal.1 ∧ info.Name = k ∧ GoodRecord info ∧ GoodName k

/-- The states the server can be in: it starts with both stores empty and
serves uploads and downloads one after the other, while the store expires
keys and the subscriber receives their names. -/
inductive Reachable : World → Prop
  | init : Reachable World.init
  | upload (now : Time) (req : UploadRequest) (w : World) :
      Reachable w → Reachable (uploadHandler now req w).2
  | download (now : Time) (req : DownloadRequest) (w : World) :
      Reachable w → Reachable (downloadHandler now req w).2
  | expire (name : String) (w : World) :
      Reachable w → Reachable (storeExpire name w)
  | deliver (w : World) :
      Reachable w → Reachable (subscriberStep w)

/-! ## The safe-name grammar of the specification -/

/-- A rune of the class `[A-Za-z0-9._-]`: an ASCII letter, an ASCII digit,
a dot, an underscore or a hyphen. -/
def IsGrammarRune (c : Char) : Prop :=
  c.isAlpha = true ∨ c.isDigit = true ∨ c = '.' ∨ c = '_' ∨ c = '-'

/-- The safe-name grammar `[A-Za-z0-9._-]+` in the words of the
specification: not empty and every rune of the class. -/
def MatchesSafeGrammar (name : String) : Prop :=
  name.data ≠ [] ∧ ∀ c ∈ name.data, IsGrammarRune c

/-! ## Example inputs -/

/-- An upload instant a quarter of a second into its second. -/
def t0 : Time := ⟨1700000000, 250000000, by decide, by decide, by decide⟩

/-- A later instant. -/
def t1 : Time := ⟨1700000100, 0, by decide, by decide, by decide⟩

/-- An instant after the hour of `reqA` has run out. -/
def t2 : Time := ⟨1700003700, 0, by decide, by decide, by decide⟩

/-- The upload of two bytes under the name `a`, one download, one hour. -/
def reqA : UploadRequest := ⟨some "a", some ⟨"hi.txt", [104, 105]⟩, some 3600, some 1⟩

/-- The stores after the upload `reqA` into the empty stores. -/
def worldA : World := (uploadHandler t0 reqA World.init).2

/-- The upload `reqA`, the expiry of its key in the store, the upload `reqA`
again, and only then the subscriber receiving the name of the expired key. -/
def worldReuploaded : World :=
  subscriberStep (uploadHandler t2 reqA (storeExpire "a" worldA)).2

/-- The record of `reqA`. -/
def infoA : FileInfo := ⟨"a", "hi.txt", 1700000000, 3600, 1, 2⟩

/-- The stored entry of `reqA`. -/
def entryA : Entry := ⟨infoA.Marshal.1, some 3599750⟩

/-- The same upload with a quota of three. -/
def reqThree : UploadRequest := ⟨some "a", some ⟨"hi.txt", [104, 105]⟩, some 3600, some 3⟩

/-- The stores after the upload `reqThree` into the empty stores. -/
def worldThree : World := (uploadHandler t0 reqThree World.init).2

/-- The record of `reqThree`. -/
def infoThree : FileInfo := ⟨"a", "hi.txt", 1700000000, 3600, 3, 2⟩

/-- The stored entry of `reqThree`. -/
def entryThree : Entry := ⟨infoThree.Marshal.1, some 3599750⟩

/-- The upload of two bytes under the name `index.html`, one download. -/
def reqIndex : UploadRequest :=
  ⟨some "index.html", some ⟨"hi.txt", [104, 105]⟩, some 3600, some 1⟩

/-- The stores after the upload `reqIndex` into the empty stores. -/
def worldIndex : World := (uploadHandler t0 reqIndex World.init).2

/-- The record of `reqIndex`. -/
def infoIndex : FileInfo := ⟨"index.html", "hi.txt", 1700000000, 3600, 1, 2⟩

/-- The same upload with a quota of three. -/
def reqIndexThree : UploadRequest :=
  ⟨some "index.html", some ⟨"hi.txt", [104, 105]⟩, some 3600, some 3⟩

/-- The stores after the upload `reqIndexThree` into the empty stores. -/
def worldIndexThree : World := (uploadHandler t0 reqIndexThree World.init).2

/-- The record of `reqIndexThree`. -/
def infoIndexThree : FileInfo := ⟨"index.html", "hi.txt", 1700000000, 3600, 3, 2⟩

/-- A plain `GET /download/index.html`. -/
def getIndex : DownloadRequest := ⟨"index.html", false⟩

/-- A plain `GET /download/a`. -/
def getA : DownloadRequest := ⟨"a", false⟩

/-- The upload of the test `testInvalidName`. -/
def reqInvalid : UploadRequest :=
  ⟨some "invalid_name_because_it_contains_@", some ⟨"file_name", [102]⟩, some 3600, some 42⟩

/-- An upload under the name `.`. -/
def reqDot : UploadRequest := ⟨some ".", some ⟨"hi.txt", [104, 105]⟩, some 3600, some 1⟩

/-! # Properties -/

/-! ## Arithmetic of `int64` -/

theorem wrapInt64_eq_self (x : Int) (h : IsInt64 x) : wrapInt64 x = x := by
  unfold IsInt64 at h
  unfold wrapInt64
  omega

theorem wrapInt64_isInt64 (x : Int) : IsInt64 (wrapInt64 x) := by
  unfold IsInt64 wrapInt64
  omega

/-! ## The safe-name loop -/

theorem isSafeNameLoop_iff (cs : List Char) :
    isSafeNameLoop cs = true ↔ ∀ c ∈ cs, isSafeRune c = true := by
  induction cs with
  | nil => simp [isSafeNameLoop]
  | cons c cs ih =>
    cases hc : isSafeRune c <;> simp [isSafeNameLoop, hc, ih]

theorem slash_not_mem_of_safe (cs : List Char) (h : isSafeNameLoop cs = true) :
    '/' ∉ cs := by
  intro hmem
  have := (isSafeNameLoop_iff cs).1 h '/' hmem
  revert this
  decide

/-! ## Paths -/

theorem splitSlash_ne_nil (cs : List Char) : splitSlash cs ≠ [] := by
  cases cs with
  | nil => simp [splitSlash]
  | cons c cs =>
    unfold splitSlash
    split
    · simp
    · split <;> simp

theorem splitSlash_of_not_mem (cs : List Char) (h : '/' ∉ cs) : splitSlash cs = [cs] := by
  induction cs with
  | nil => rfl
  | cons c cs ih =>
    have hc : c ≠ '/' := fun e => h (by simp [e])
    have hcs : '/' ∉ cs := fun e => h (by simp [e])
    simp [splitSlash, hc, ih hcs]

theorem splitSlash_append (xs ys : List Char) :
    splitSlash (xs ++ '/' :: ys) = splitSlash xs ++ splitSlash ys := by
  induction xs with
  | nil => simp [splitSlash]
  | cons c cs ih =>
    by_cases hc : c = '/'
    · simp [splitSlash, hc, ih]
    · have hstep : ∀ zs : List Char, splitSlash (c :: zs) =
          (match splitSlash zs with
            | [] => [[c]]
            | h :: t => (c :: h) :: t) := by
        intro zs
        simp [splitSlash, hc]
      rw [List.cons_append, hstep, hstep, ih]
      cases hs : splitSlash cs with
      | nil => exact absurd hs (splitSlash_ne_nil cs)
      | cons h t => simp

theorem join_goodName (k : String) (h : GoodName k) :
    Join UPLOAD_DIR k = ⟨"upload/".data ++ k.data⟩ := by
  obtain ⟨hs, h0, h1, h2⟩ := h
  have hk0 : k.data ≠ [] := fun e => h0 (String.ext e)
  have hk1 : k.data ≠ ['.'] := fun e => h1 (String.ext e)
  have hk2 : k.data ≠ ['.', '.'] := fun e => h2 (String.ext e)
  have hsplit : splitSlash k.data = [k.data] :=
    splitSlash_of_not_mem _ (slash_not_mem_of_safe _ hs)
  have hroot : splitSlash UPLOAD_DIR.data = [['.'], ['u', 'p', 'l', 'o', 'a', 'd']] := by
    decide
  have hdata : UPLOAD_DIR.data = '.' :: ['/', 'u', 'p', 'l', 'o', 'a', 'd'] := rfl
  unfold Join
  rw [if_pos (by decide)]
  congr 1
  unfold cleanChars
  rw [splitSlash_append, hroot, hsplit, hdata]
  simp [cleanStep, hk0, hk1, hk2, joinSlash]

theorem join_injective (a b : String) (ha : GoodName a) (hb : GoodName b)
    (h : Join UPLOAD_DIR a = Join UPLOAD_DIR b) : a = b := by
  rw [join_goodName a ha, join_goodName b hb] at h
  have h2 : "upload/".data ++ a.data = "upload/".data ++ b.data := by
    injection h
  exact String.ext (List.append_cancel_left h2)

theorem isDirectory_join_goodName (k : String) (h : GoodName k) :
    isDirectory (Join UPLOAD_DIR k) = false := by
  rw [join_goodName k h]
  have hk0 : k.data ≠ [] := fun e => h.2.1 (String.ext e)
  have h1 : (⟨"upload/".data ++ k.data⟩ : String) ≠ Clean UPLOAD_DIR := by
    intro e
    have e2 : "upload/".data ++ k.data = (Clean UPLOAD_DIR).data := congrArg String.data e
    have e3 : (Clean UPLOAD_DIR).data = ['u', 'p', 'l', 'o', 'a', 'd'] := by decide
    rw [e3] at e2
    simp at e2
  have h2 : (⟨"upload/".data ++ k.data⟩ : String) ≠ Join UPLOAD_DIR ".." := by
    intro e
    have e2 : "upload/".data ++ k.data = (Join UPLOAD_DIR "..").data := congrArg String.data e
    have e3 : (Join UPLOAD_DIR "..").data = ['.'] := by decide
    rw [e3] at e2
    simp at e2
  unfold isDirectory
  rw [Bool.or_eq_false_iff]
  exact ⟨by simpa using h1, by simpa using h2⟩

theorem goodName_of_upload (k : String) (hs : isSafeName k = true) (h0 : k ≠ "")
    (hd : isDirectory (Join UPLOAD_DIR k) = false) : GoodName k := by
  refine ⟨hs, h0, ?_, ?_⟩
  · intro e
    subst e
    revert hd
    decide
  · intro e
    subst e
    revert hd
    decide

/-! ## The record encoding -/

theorem unmarshal_marshal (info : FileInfo) :
    UnmarshalToFileInfo info.Marshal.1 = .ok info := by
  obtain ⟨n, r, t, l, q, s⟩ := info
  unfold UnmarshalToFileInfo FileInfo.Marshal FileInfo.zero gobStringField gobIntField
  by_cases hn : n = "" <;> by_cases hr : r = "" <;> by_cases ht : t = 0 <;>
    by_cases hl : l = 0 <;> by_cases hq : q = 0 <;> by_cases hs : s = 0 <;>
    simp [hn, hr, ht, hl, hq, hs, gobDecodeFields, gobDecodeField]

/-! ## The two stores -/

theorem rdbGet_del_self (db : Rdb) (k : String) : rdbGet (rdbDel db k) k = none := by
  induction db with
  | nil => rfl
  | cons p rest ih =>
    obtain ⟨k2, e⟩ := p
    by_cases h : k2 = k <;> simp [rdbDel, rdbGet, h, ih]

theorem rdbGet_del_other (db : Rdb) (k k2 : String) (h : k ≠ k2) :
    rdbGet (rdbDel db k) k2 = rdbGet db k2 := by
  induction db with
  | nil => rfl
  | cons p rest ih =>
    obtain ⟨k3, e⟩ := p
    by_cases h3 : k3 = k
    · have h4 : k3 ≠ k2 := fun e => h (h3 ▸ e)
      simp [rdbDel, rdbGet, h3, ih, h]
    · by_cases h5 : k3 = k2
      · subst h5
        simp [rdbDel, rdbGet, h3]
      · simp [rdbDel, rdbGet, h3, h5, ih]

theorem diskRead_remove_self (d : Disk) (p : String) : diskRead (diskRemove d p) p = none := by
  induction d with
  | nil => rfl
  | cons x rest ih =>
    obtain ⟨q, b⟩ := x
    by_cases h : q = p <;> simp [diskRemove, diskRead, h, ih]

theorem diskRead_remove_other (d : Disk) (p q : String) (h : p ≠ q) :
    diskRead (diskRemove d p) q = diskRead d q := by
  induction d with
  | nil => rfl
  | cons x rest ih =>
    obtain ⟨r, b⟩ := x
    by_cases h3 : r = p
    · simp [diskRemove, diskRead, h3, ih, h]
    · by_cases h5 : r = q
      · subst h5
        simp [diskRemove, diskRead, h3]
      · simp [diskRemove, diskRead, h3, h5, ih]

theorem diskRead_write (d : Disk) (p q : String) (c : Bytes) :
    diskRead (diskWrite d p c) q = if p = q then some c else diskRead d q := by
  by_cases h : p = q
  · simp [diskWrite, diskRead, h]
  · simp [diskWrite, diskRead, h, diskRead_remove_other d p q h]

/-! ## Binding of the upload form -/

theorem bindInt64_ok (field : Option Int) (dflt n : Int) (hd : IsInt64 dflt)
    (h : bindInt64 field dflt = .ok n) : IsInt64 n := by
  unfold bindInt64 at h
  cases field with
  | none =>
    simp at h
    exact h ▸ hd
  | some m =>
    by_cases hm : IsInt64 m
    · simp [hm] at h
      exact h ▸ hm
    · simp [hm] at h

theorem bindInt64_value (field : Option Int) (dflt n : Int)
    (h : bindInt64 field dflt = .ok n) : n = field.getD dflt := by
  unfold bindInt64 at h
  cases field with
  | none =>
    simp at h
    simp [h]
  | some m =>
    by_cases hm : IsInt64 m
    · simp [hm] at h
      simp [h]
    · simp [hm] at h

theorem shouldBind_ok (req : UploadRequest) (form : UploadForm)
    (h : ShouldBind req = .ok form) :
    form.Name ≠ "" ∧ IsInt64 form.Lifespan ∧ IsInt64 form.DownloadQuota ∧
      req.name = some form.Name ∧ req.file = some form.RawFile ∧
      form.Lifespan = req.life.getD (-1) ∧ form.DownloadQuota = req.quota.getD 1 := by
  unfold ShouldBind at h
  cases hl : bindInt64 req.life (-1) with
  | error e => simp [hl] at h
  | ok life =>
    cases hq : bindInt64 req.quota 1 with
    | error e => simp [hl, hq] at h
    | ok quota =>
      have h1 := bindInt64_ok _ _ _ (by decide) hl
      have h2 := bindInt64_ok _ _ _ (by decide) hq
      have h3 := bindInt64_value _ _ _ hl
      have h4 := bindInt64_value _ _ _ hq
      cases hn : req.name with
      | none => simp [hl, hq, hn] at h
      | some name =>
        cases hf : req.file with
        | none => simp [hl, hq, hn, hf] at h
        | some file =>
          by_cases he : name = ""
          · simp [hl, hq, hn, hf, he] at h
          · simp [hl, hq, hn, hf, he] at h
            subst h
            exact ⟨he, h1, h2, rfl, rfl, h3, h4⟩

/-! ## The expiration sent to the store -/

theorem goDiv_of_nonneg (a b : Int) (h : 0 ≤ a) : goDiv a b = a / b := by
  unfold goDiv
  rw [if_pos h]

theorem expireMillis_pos (d : Int) (h : 0 < d) : 0 < expireMillis d := by
  unfold expireMillis formatMs formatSec
  rw [goDiv_of_nonneg d _ (by omega), goDiv_of_nonneg d _ (by omega)]
  cases hp : usePrecise d with
  | true =>
    simp only [if_true]
    split_ifs <;> omega
  | false =>
    have h1 : ¬ d < 1000000000 := by
      intro hlt
      simp [usePrecise, hlt] at hp
    simp only [Bool.false_eq_true, if_false]
    split_ifs <;> omega

theorem expireMillis_nonpos (d : Int) (h : d ≤ 0) : expireMillis d ≤ 0 := by
  have hp : usePrecise d = true := by
    have : d < 1000000000 := by omega
    simp [usePrecise, this]
  unfold expireMillis formatMs goDiv
  rw [hp]
  simp only [if_true]
  split_ifs <;> omega

theorem expireMillis_nonpos_iff (d : Int) : expireMillis d ≤ 0 ↔ d ≤ 0 := by
  constructor
  · intro h
    by_contra hc
    have := expireMillis_pos d (by omega)
    omega
  · exact expireMillis_nonpos d

/-- The milliseconds go-redis sends for a duration of at least one
millisecond: the duration truncated to whole milliseconds. -/
theorem expireMillis_of_pos (d : Int) (h2 : 1000000 ≤ d) :
    expireMillis d = d / 1000000 := by
  unfold expireMillis formatMs formatSec
  rw [goDiv_of_nonneg d _ (by omega), goDiv_of_nonneg d _ (by omega)]
  cases hp : usePrecise d with
  | true =>
    simp only [if_true]
    rw [if_neg (by omega)]
  | false =>
    have h1 : ¬ d < 1000000000 := by
      intro hlt
      simp [usePrecise, hlt] at hp
    have h3 : goMod d 1000000000 = 0 := by
      by_contra hne
      simp [usePrecise, hne] at hp
    unfold goMod at h3
    rw [goDiv_of_nonneg d _ (by omega)] at h3
    simp only [Bool.false_eq_true, if_false]
    rw [if_neg (by omega)]
    omega

/-! ## The handlers, case by case -/

/-- The download handler on a key that holds the encoding of a record of
that name. -/
theorem download_stored (now : Time) (req : DownloadRequest) (w : World) (e : Entry)
    (info : FileInfo) (hget : rdbGet w.rdb req.name = some e)
    (henc : e.value = info.Marshal.1) (hname : info.Name = req.name) :
    downloadHandler now req w =
      if downloadRefused now info then (Response.fail "Expired or quota exceeded!", w)
      else if wrapInt64 (info.DownloadQuota - 1) ≤ 0 then
        (FileAttachment req w.disk (Join UPLOAD_DIR req.name) info.RawFilename,
          ⟨rdbDel w.rdb req.name, DeleteFileFromDisk req.name w.disk, w.pending⟩)
      else
        (FileAttachment req w.disk (Join UPLOAD_DIR req.name) info.RawFilename,
          ⟨rdbSet w.rdb req.name
            ({ info with DownloadQuota := wrapInt64 (info.DownloadQuota - 1) } :
              FileInfo).Marshal.1 KeepTTL, w.disk, w.pending⟩) := by
  unfold downloadHandler FetchFileInfo
  rw [hget]
  simp only [henc, unmarshal_marshal]
  rw [← hname]
  by_cases hr : downloadRefused now info = true
  · simp [hr]
  · by_cases hq : wrapInt64 (info.DownloadQuota - 1) ≤ 0
    · simp [hr, hq]
    · simp [hr, hq, FileInfo.Marshal]

theorem download_missing (now : Time) (req : DownloadRequest) (w : World)
    (hget : rdbGet w.rdb req.name = none) :
    downloadHandler now req w = (Response.fail "Expired or quota exceeded!", w) := by
  unfold downloadHandler FetchFileInfo
  rw [hget]

theorem rdbSet_keepTTL (db : Rdb) (key : String) (v : Encoded) (e : Entry)
    (h : rdbGet db key = some e) :
    rdbSet db key v KeepTTL = (key, ⟨v, e.ttl⟩) :: rdbDel db key := by
  unfold rdbSet
  rw [h]
  simp [KeepTTL]

/-- The upload handler after a successful binding, one test after the
other. -/
theorem upload_bound (now : Time) (req : UploadRequest) (w : World) (form : UploadForm)
    (hb : ShouldBind req = .ok form) :
    uploadHandler now req w =
      if isSafeName form.Name = false then
        (Response.fail ("Illegal name: " ++ form.Name), w)
      else if ¬(form.Lifespan = -1 ∨ 1 ≤ form.Lifespan) then
        (Response.fail "The expiration must be later than now", w)
      else if (rdbGet w.rdb form.Name).isSome = true then
        (Response.fail "The key already exists!", w)
      else if form.RawFile.Size > MAX_UPLOAD_SIZE then
        (Response.error ("Saving uploaded file failed:" ++ "File too large (> 2 MB)"), w)
      else if isDirectory (Join UPLOAD_DIR form.Name) = true then
        (Response.error ("Saving uploaded file failed:" ++
          ("open " ++ Join UPLOAD_DIR form.Name ++ ": is a directory")), w)
      else if expirationNs now (uploadInfo now form) ≠ 0 ∧
          expirationNs now (uploadInfo now form) ≠ KeepTTL ∧
          expireMillis (expirationNs now (uploadInfo now form)) ≤ 0 then
        (Response.error ("Update failed:" ++ "ERR invalid expire time in set"),
          ⟨w.rdb, diskWrite w.disk (Join UPLOAD_DIR form.Name) form.RawFile.content,
            w.pending⟩)
      else
        (Response.success (uploadInfo now form),
          ⟨(form.Name, ⟨(uploadInfo now form).Marshal.1,
              if expirationNs now (uploadInfo now form) ≠ 0 ∧
                  expirationNs now (uploadInfo now form) ≠ KeepTTL
              then some (expireMillis (expirationNs now (uploadInfo now form)))
              else none⟩) :: w.rdb,
            diskWrite w.disk (Join UPLOAD_DIR form.Name) form.RawFile.content,
            w.pending⟩) := by
  unfold uploadHandler uploadHandlerWith
  rw [hb]
  by_cases h1 : isSafeName form.Name = false
  · simp [h1]
  have h1t : isSafeName form.Name = true := by simpa using h1
  by_cases h2 : ¬(form.Lifespan = -1 ∨ 1 ≤ form.Lifespan)
  · have h2a : form.Lifespan ≠ -1 := fun e => h2 (Or.inl e)
    have h2b : ¬ 1 ≤ form.Lifespan := fun e => h2 (Or.inr e)
    simp [h1t, h2a, h2b]
  have h2t : form.Lifespan = -1 ∨ 1 ≤ form.Lifespan := by
    by_contra hc
    exact h2 hc
  have h2s : (form.Lifespan == -1 || decide (form.Lifespan ≥ 1)) = true := by
    rcases h2t with e | e <;> simp [e]
  rw [if_neg h1, if_neg h2]
  simp only [h1t, h2s, Bool.not_true, Bool.false_eq_true, if_false]
  cases hg : rdbGet w.rdb form.Name with
  | some e => simp
  | none =>
    simp only [Option.isSome_none, Bool.false_eq_true, if_false, id]
    unfold SaveUploadedFile
    by_cases h4 : form.RawFile.Size > MAX_UPLOAD_SIZE
    · simp [h4]
    rw [if_neg h4, if_neg h4]
    by_cases h5 : isDirectory (Join UPLOAD_DIR form.Name) = true
    · simp [h5]
    rw [if_neg h5, if_neg h5]
    simp only [uploadInfo, FileInfo.Marshal, rdbSetNX, hg]
    split_ifs <;> simp_all [errorText]


/-- An upload whose expiry second, counted from year 1, does not fit in
`int64` hands `SetNX` the minimum duration. -/
theorem expirationNs_overflow (now : Time) (info : FileInfo)
    (hts : info.UploadTimeStamp = now.sec) (hL : 1 ≤ info.Lifespan)
    (hi : IsInt64 info.Lifespan)
    (hov : 9223372036854775807 < info.UploadTimeStamp + info.Lifespan + 62135596800) :
    expirationNs now info = -9223372036854775808 := by
  have hs := now.sec_int64
  have hf := now.sec_fits
  have hn := now.nsec_lt
  unfold IsInt64 at hs hi
  have hne : info.Lifespan ≠ -1 := by omega
  have hw : wrapInt64 (wrapInt64 (info.UploadTimeStamp + info.Lifespan) + unixToInternal) =
      info.UploadTimeStamp + info.Lifespan + 62135596800 - 18446744073709551616 := by
    unfold wrapInt64 unixToInternal
    omega
  unfold expirationNs unixSub saturateDuration
  rw [if_neg hne, hw, hts]
  unfold unixToInternal
  rw [if_pos (by omega)]

/-- The expiration of an upload whose expiry second fits. -/
theorem expirationNs_of_fit (now : Time) (info : FileInfo)
    (hts : info.UploadTimeStamp = now.sec) (hL : 1 ≤ info.Lifespan)
    (hfit : info.UploadTimeStamp + info.Lifespan + 62135596800 ≤ 9223372036854775807) :
    expirationNs now info =
      saturateDuration (info.Lifespan * 1000000000 - (now.nsec : Int)) := by
  have hs := now.sec_int64
  unfold IsInt64 at hs
  have hne : info.Lifespan ≠ -1 := by omega
  have hw : wrapInt64 (wrapInt64 (info.UploadTimeStamp + info.Lifespan) + unixToInternal) =
      info.UploadTimeStamp + info.Lifespan + 62135596800 := by
    unfold wrapInt64 unixToInternal
    omega
  unfold expirationNs unixSub
  rw [if_neg hne, hw, hts]
  unfold unixToInternal
  congr 1
  omega

theorem saturateDuration_nonneg (d : Int) (h : 0 ≤ d) : 0 ≤ saturateDuration d := by
  unfold saturateDuration
  split_ifs <;> omega

theorem saturateDuration_pos (d : Int) (h : 0 < d) : 0 < saturateDuration d := by
  unfold saturateDuration
  split_ifs <;> omega

/-- An upload that `SetNX` does not refuse has an expiry second that fits. -/
theorem fits_of_accepted (now : Time) (form : UploadForm)
    (hL : 1 ≤ form.Lifespan) (hi : IsInt64 form.Lifespan)
    (hx : ¬(expirationNs now (uploadInfo now form) ≠ 0 ∧
          expirationNs now (uploadInfo now form) ≠ KeepTTL ∧
          expireMillis (expirationNs now (uploadInfo now form)) ≤ 0)) :
    now.sec + form.Lifespan + 62135596800 ≤ 9223372036854775807 := by
  by_contra hc
  have hov := expirationNs_overflow now (uploadInfo now form) rfl hL hi
    (by
      have h1 : (uploadInfo now form).UploadTimeStamp = now.sec := rfl
      have h2 : (uploadInfo now form).Lifespan = form.Lifespan := rfl
      rw [h1, h2]
      omega)
  apply hx
  rw [hov]
  decide

theorem goodRecord_uploadInfo (now : Time) (form : UploadForm)
    (hL : form.Lifespan = -1 ∨ 1 ≤ form.Lifespan) (hi : IsInt64 form.Lifespan)
    (hq : IsInt64 form.DownloadQuota)
    (hx : ¬(expirationNs now (uploadInfo now form) ≠ 0 ∧
          expirationNs now (uploadInfo now form) ≠ KeepTTL ∧
          expireMillis (expirationNs now (uploadInfo now form)) ≤ 0)) :
    GoodRecord (uploadInfo now form) := by
  refine ⟨now.sec_int64, hi, hq, ?_⟩
  rcases hL with h | h
  · exact Or.inl h
  · refine Or.inr ⟨h, ?_⟩
    have := fits_of_accepted now form h hi hx
    have h1 : (uploadInfo now form).UploadTimeStamp = now.sec := rfl
    have h2 : (uploadInfo now form).Lifespan = form.Lifespan := rfl
    rw [h1, h2]
    omega

/-- What a successful upload has checked, built and stored. -/
theorem upload_success (now : Time) (req : UploadRequest) (w w2 : World) (info : FileInfo)
    (hup : uploadHandler now req w = (Response.success info, w2)) :
    ∃ form, ShouldBind req = .ok form ∧ info = uploadInfo now form ∧
      GoodName form.Name ∧ GoodRecord info ∧ rdbGet w.rdb form.Name = none ∧
      (info.Lifespan = -1 ∨ (1 ≤ info.Lifespan ∧
        now.sec + info.Lifespan + 62135596800 ≤ 9223372036854775807)) ∧
      w2 = ⟨(form.Name, ⟨info.Marshal.1,
              if expirationNs now info ≠ 0 ∧ expirationNs now info ≠ KeepTTL
              then some (expireMillis (expirationNs now info)) else none⟩) :: w.rdb,
          diskWrite w.disk (Join UPLOAD_DIR form.Name) form.RawFile.content,
          w.pending⟩ := by
  cases hb : ShouldBind req with
  | error err =>
    have hu : uploadHandler now req w = (Response.fail ("Bad request: " ++ err), w) := by
      unfold uploadHandler uploadHandlerWith
      rw [hb]
    rw [hu] at hup
    injection hup with h _
    cases h
  | ok form =>
    obtain ⟨hne, hi, hq64, _, _, _, _⟩ := shouldBind_ok req form hb
    rw [upload_bound now req w form hb] at hup
    by_cases h1 : isSafeName form.Name = false
    · rw [if_pos h1] at hup
      injection hup with h _
      cases h
    rw [if_neg h1] at hup
    by_cases h2 : ¬(form.Lifespan = -1 ∨ 1 ≤ form.Lifespan)
    · rw [if_pos h2] at hup
      injection hup with h _
      cases h
    rw [if_neg h2] at hup
    by_cases h3 : (rdbGet w.rdb form.Name).isSome = true
    · rw [if_pos h3] at hup
      injection hup with h _
      cases h
    rw [if_neg h3] at hup
    by_cases h4 : form.RawFile.Size > MAX_UPLOAD_SIZE
    · rw [if_pos h4] at hup
      injection hup with h _
      cases h
    rw [if_neg h4] at hup
    by_cases h5 : isDirectory (Join UPLOAD_DIR form.Name) = true
    · rw [if_pos h5] at hup
      injection hup with h _
      cases h
    rw [if_neg h5] at hup
    by_cases h6 : expirationNs now (uploadInfo now form) ≠ 0 ∧
        expirationNs now (uploadInfo now form) ≠ KeepTTL ∧
        expireMillis (expirationNs now (uploadInfo now form)) ≤ 0
    · rw [if_pos h6] at hup
      injection hup with h _
      cases h
    rw [if_neg h6] at hup
    injection hup with hresp hw2
    injection hresp with hinfo
    subst hinfo
    subst hw2
    have hL : form.Lifespan = -1 ∨ 1 ≤ form.Lifespan := by
      by_contra hc
      exact h2 hc
    have hsafe : isSafeName form.Name = true := by simpa using h1
    have hdir : isDirectory (Join UPLOAD_DIR form.Name) = false := by simpa using h5
    have hnone : rdbGet w.rdb form.Name = none := by
      cases hg : rdbGet w.rdb form.Name with
      | none => rfl
      | some e => simp [hg] at h3
    have hfit : (uploadInfo now form).Lifespan = -1 ∨ (1 ≤ (uploadInfo now form).Lifespan ∧
        now.sec + (uploadInfo now form).Lifespan + 62135596800 ≤ 9223372036854775807) := by
      rcases hL with h | h
      · exact Or.inl h
      · exact Or.inr ⟨h, fits_of_accepted now form h hi h6⟩
    exact ⟨form, rfl, rfl, goodName_of_upload _ hsafe hne hdir,
      goodRecord_uploadInfo now form hL hi hq64 h6, hnone, hfit, rfl⟩

/-! ## The invariant holds in every reachable state -/

theorem inv_init : Inv World.init := by
  intro k e h
  simp [World.init, rdbGet] at h

theorem inv_of_rdb_eq (w w2 : World) (hw : Inv w) (h : w2.rdb = w.rdb) : Inv w2 := by
  intro k e hget
  rw [h] at hget
  exact hw k e hget

theorem inv_del (w w2 : World) (hw : Inv w) (name : String)
    (h : w2.rdb = rdbDel w.rdb name) : Inv w2 := by
  intro k e2 hget
  rw [h] at hget
  have hk : name ≠ k := by
    intro hk
    subst hk
    simp [rdbGet_del_self] at hget
  rw [rdbGet_del_other _ _ _ hk] at hget
  exact hw k e2 hget

theorem inv_upload (now : Time) (req : UploadRequest) (w : World) (hw : Inv w) :
    Inv (uploadHandler now req w).2 := by
  cases hb : ShouldBind req with
  | error err =>
    have : uploadHandler now req w = (Response.fail ("Bad request: " ++ err), w) := by
      unfold uploadHandler uploadHandlerWith
      rw [hb]
    rw [this]
    exact hw
  | ok form =>
    obtain ⟨hne, hi, hq, _, _, _, _⟩ := shouldBind_ok req form hb
    rw [upload_bound now req w form hb]
    by_cases h1 : isSafeName form.Name = false
    · rw [if_pos h1]
      exact hw
    rw [if_neg h1]
    by_cases h2 : ¬(form.Lifespan = -1 ∨ 1 ≤ form.Lifespan)
    · rw [if_pos h2]
      exact hw
    rw [if_neg h2]
    by_cases h3 : (rdbGet w.rdb form.Name).isSome = true
    · rw [if_pos h3]
      exact hw
    rw [if_neg h3]
    by_cases h4 : form.RawFile.Size > MAX_UPLOAD_SIZE
    · rw [if_pos h4]
      exact hw
    rw [if_neg h4]
    by_cases h5 : isDirectory (Join UPLOAD_DIR form.Name) = true
    · rw [if_pos h5]
      exact hw
    rw [if_neg h5]
    by_cases h6 : expirationNs now (uploadInfo now form) ≠ 0 ∧
          expirationNs now (uploadInfo now form) ≠ KeepTTL ∧
          expireMillis (expirationNs now (uploadInfo now form)) ≤ 0
    · rw [if_pos h6]
      exact inv_of_rdb_eq w _ hw rfl
    rw [if_neg h6]
    have hsafe : isSafeName form.Name = true := by simpa using h1
    have hdir : isDirectory (Join UPLOAD_DIR form.Name) = false := by simpa using h5
    have hgn : GoodName form.Name := goodName_of_upload _ hsafe hne hdir
    have hL : form.Lifespan = -1 ∨ 1 ≤ form.Lifespan := by
      by_contra hc
      exact h2 hc
    have hrec := goodRecord_uploadInfo now form hL hi hq h6
    intro k e h
    by_cases hk : form.Name = k
    · subst hk
      simp only [rdbGet, if_true] at h
      injection h with h
      subst h
      exact ⟨uploadInfo now form, rfl, rfl, hrec, hgn⟩
    · simp only [rdbGet, hk, if_false] at h
      exact hw k e h

theorem inv_download (now : Time) (req : DownloadRequest) (w : World) (hw : Inv w) :
    Inv (downloadHandler now req w).2 := by
  cases hget : rdbGet w.rdb req.name with
  | none =>
    rw [download_missing now req w hget]
    exact hw
  | some e =>
    obtain ⟨info, h1, h2, h3, h4⟩ := hw req.name e hget
    rw [download_stored now req w e info hget h1 h2]
    by_cases hr : downloadRefused now info = true
    · rw [if_pos hr]
      exact hw
    rw [if_neg hr]
    by_cases hq : wrapInt64 (info.DownloadQuota - 1) ≤ 0
    · rw [if_pos hq]
      exact inv_del w _ hw req.name rfl
    rw [if_neg hq, rdbSet_keepTTL _ _ _ e hget]
    intro k e2 h
    by_cases hk : req.name = k
    · subst hk
      simp only [rdbGet, if_true] at h
      injection h with h
      subst h
      exact ⟨_, rfl, h2, ⟨h3.1, h3.2.1, wrapInt64_isInt64 _, h3.2.2.2⟩, h4⟩
    · simp only [rdbGet, hk, if_false] at h
      rw [rdbGet_del_other _ _ _ hk] at h
      exact hw k e2 h

theorem inv_expire (name : String) (w : World) (hw : Inv w) : Inv (storeExpire name w) := by
  unfold storeExpire
  split
  · exact inv_del w _ hw name rfl
  · exact hw

theorem inv_deliver (w : World) (hw : Inv w) : Inv (subscriberStep w) := by
  unfold subscriberStep
  split
  · exact hw
  · exact inv_of_rdb_eq w _ hw rfl

theorem inv_of_reachable (w : World) (h : Reachable w) : Inv w := by
  induction h with
  | init => exact inv_init
  | upload now req w _ ih => exact inv_upload now req w ih
  | download now req w _ ih => exact inv_download now req w ih
  | expire name w _ ih => exact inv_expire name w ih
  | deliver w _ ih => exact inv_deliver w ih

/-! ## The safe-name grammar -/

theorem isSafeRune_iff (c : Char) : isSafeRune c = true ↔ IsGrammarRune c := by
  unfold isSafeRune IsGrammarRune Char.isAlpha Char.isDigit Char.isUpper Char.isLower
  simp [Char.le_def, UInt32.le_def]
  tauto

/-! ## C1: the safe-name check -/

/-- C1, as stated, fails at the empty name: `isSafeName` returns true on it,
and the grammar `[A-Za-z0-9._-]+` does not match it. -/
theorem isSafeName_accepts_empty :
    ¬(isSafeName "" = true ↔ MatchesSafeGrammar "") := by
  intro h
  exact (h.1 (by decide)).1 rfl

/-- C1, amended: `isSafeName name` is true exactly when every rune of the
name is an ASCII letter, an ASCII digit, a dot, an underscore or a hyphen
(the empty name included), and an upload whose name it refuses, or whose
name is empty, is answered with the `fail` response and changes nothing. -/
theorem isSafeName_iff_runes (name : String) :
    (isSafeName name = true ↔ ∀ c ∈ name.data, IsGrammarRune c) ∧
    (∀ (now : Time) (req : UploadRequest) (w : World), req.name = some name →
      (isSafeName name = false ∨ name = "") →
      ∃ msg, uploadHandler now req w = (Response.fail msg, w)) := by
  constructor
  · unfold isSafeName
    rw [isSafeNameLoop_iff]
    constructor
    · intro h c hc
      exact (isSafeRune_iff c).1 (h c hc)
    · intro h c hc
      exact (isSafeRune_iff c).2 (h c hc)
  · intro now req w hname hbad
    cases hb : ShouldBind req with
    | error err =>
      refine ⟨"Bad request: " ++ err, ?_⟩
      unfold uploadHandler uploadHandlerWith
      rw [hb]
    | ok form =>
      obtain ⟨hne, _, _, hn, _, _, _⟩ := shouldBind_ok req form hb
      have hfn : form.Name = name := by
        rw [hname] at hn
        injection hn with hn
        exact hn.symm
      rcases hbad with hbad | hbad
      · refine ⟨"Illegal name: " ++ form.Name, ?_⟩
        rw [upload_bound now req w form hb, if_pos (by rw [hfn]; exact hbad)]
      · exact absurd (hfn.trans hbad) hne

/-- C1, amended, on the upload of the test `testInvalidName`. -/
theorem isSafeName_iff_runes_witness :
    ∃ msg, uploadHandler t0 reqInvalid World.init = (Response.fail msg, World.init) :=
  (isSafeName_iff_runes "invalid_name_because_it_contains_@").2 t0 reqInvalid World.init rfl
    (Or.inl (by decide))

/-! ## C2: the blob path of a safe name -/

/-- C2 fails in the code: `isSafeName` accepts `..`, `.` and the empty name,
and `filepath.Join(UPLOAD_DIR, name)` is then the parent of the storage root
for `..` and the storage root itself for `.` and for the empty name. -/
theorem join_of_dot_names :
    isSafeName ".." = true ∧ Join UPLOAD_DIR ".." = "." ∧
    isSafeName "." = true ∧ Join UPLOAD_DIR "." = Clean UPLOAD_DIR ∧
    isSafeName "" = true ∧ Join UPLOAD_DIR "" = Clean UPLOAD_DIR ∧
    Clean UPLOAD_DIR = "upload" := by
  decide

/-! ## C3: validation of quota and lifespan -/

/-- An upload of a name whose record the existence check finds is answered
with the `fail` response and changes nothing. -/
theorem upload_existing_fails (now : Time) (req : UploadRequest) (w : World)
    (form : UploadForm) (e : Entry) (hb : ShouldBind req = .ok form)
    (hsafe : isSafeName form.Name = true)
    (hlife : form.Lifespan = -1 ∨ 1 ≤ form.Lifespan)
    (hget : rdbGet w.rdb form.Name = some e) :
    uploadHandler now req w = (Response.fail "The key already exists!", w) := by
  rw [upload_bound now req w form hb, if_neg (by simp [hsafe]), if_neg (by simp [hlife]),
    if_pos (by simp [hget])]

/-- C4 fails in the code when the existence check finds nothing and another
upload of the same name stores its record before this one reaches `SetNX`:
`SetNX` returns false with a nil error, and the handler calls `err.Error()`
on that nil error, which is a run-time panic and not a failure response.
The record of the other upload stays as it was stored. -/
theorem upload_race_panics :
    rdbGet World.init.rdb "a" = none ∧
    (uploadHandlerWith (fun w => (uploadHandler t0 reqA w).2) t1 reqA World.init).1 =
      Response.panicked "runtime error: invalid memory address or nil pointer dereference" ∧
    rdbGet (uploadHandlerWith (fun w => (uploadHandler t0 reqA w).2) t1 reqA
      World.init).2.rdb "a" = some entryA := by
  decide

/-! ## `http.ServeFile` on the blob of a stored name -/

theorem splitSlashRunes_ne_nil (cs : List Char) : splitSlashRunes cs ≠ [] := by
  cases cs with
  | nil => simp [splitSlashRunes]
  | cons c cs =>
    unfold splitSlashRunes
    split
    · simp
    · split <;> simp

theorem splitSlashRunes_of_not_mem (cs : List Char) (h : '/' ∉ cs)
    (h2 : Char.ofNat 92 ∉ cs) : splitSlashRunes cs = [cs] := by
  induction cs with
  | nil => rfl
  | cons c cs ih =>
    have hc : c ≠ '/' := fun e => h (by simp [e])
    have hc2 : c ≠ Char.ofNat 92 := fun e => h2 (by simp [e])
    have hcs : '/' ∉ cs := fun e => h (by simp [e])
    have hcs2 : Char.ofNat 92 ∉ cs := fun e => h2 (by simp [e])
    simp [splitSlashRunes, hc, hc2, ih hcs hcs2]

theorem splitSlashRunes_append (xs ys : List Char) :
    splitSlashRunes (xs ++ '/' :: ys) = splitSlashRunes xs ++ splitSlashRunes ys := by
  induction xs with
  | nil => simp [splitSlashRunes]
  | cons c cs ih =>
    by_cases hc : c = '/' ∨ c = Char.ofNat 92
    · simp [splitSlashRunes, hc, ih]
    · have hstep : ∀ zs : List Char, splitSlashRunes (c :: zs) =
          (match splitSlashRunes zs with
            | [] => [[c]]
            | h :: t => (c :: h) :: t) := by
        intro zs
        simp [splitSlashRunes, hc]
      rw [List.cons_append, hstep, hstep, ih]
      cases hs : splitSlashRunes cs with
      | nil => exact absurd hs (splitSlashRunes_ne_nil cs)
      | cons h t => simp

theorem backslash_not_mem_of_safe (cs : List Char) (h : isSafeNameLoop cs = true) :
    Char.ofNat 92 ∉ cs := by
  intro hmem
  have := (isSafeNameLoop_iff cs).1 h _ hmem
  revert this
  decide

theorem containsDotDot_goodName (k : String) (h : GoodName k) :
    containsDotDot ("/download/" ++ k) = false := by
  obtain ⟨hs, _, _, h2⟩ := h
  have hk2 : k.data ≠ ['.', '.'] := fun e => h2 (String.ext e)
  have hdata : ("/download/" ++ k).data = "/download".data ++ '/' :: k.data := by
    rw [String.data_append]
    rfl
  have hroot : splitSlashRunes "/download".data =
      [[], ['d', 'o', 'w', 'n', 'l', 'o', 'a', 'd']] := by
    decide
  unfold containsDotDot
  rw [hdata, splitSlashRunes_append, hroot,
    splitSlashRunes_of_not_mem _ (slash_not_mem_of_safe _ hs)
      (backslash_not_mem_of_safe _ hs)]
  simp [hk2]

theorem eq_of_slash_split (xs ys u v : List Char) (hx : '/' ∉ xs) (hy : '/' ∉ ys)
    (h : xs ++ '/' :: u = ys ++ '/' :: v) : xs = ys := by
  induction xs generalizing ys with
  | nil =>
    cases ys with
    | nil => rfl
    | cons y ys =>
      simp at h
      exact absurd h.1.symm (fun e => hy (by simp [e]))
  | cons x xs ih =>
    cases ys with
    | nil =>
      simp at h
      exact absurd h.1 (fun e => hx (by simp [e]))
    | cons y ys =>
      simp at h
      have hx2 : '/' ∉ xs := fun e => hx (by simp [e])
      have hy2 : '/' ∉ ys := fun e => hy (by simp [e])
      rw [h.1, ih ys hx2 hy2 h.2]

theorem hasSuffix_index (k : String) (h : GoodName k)
    (hsuf : hasSuffix ("/download/" ++ k) "/index.html" = true) : k = "index.html" := by
  have hslash := slash_not_mem_of_safe _ h.1
  unfold hasSuffix at hsuf
  rw [List.isSuffixOf_iff_suffix] at hsuf
  obtain ⟨t, ht⟩ := hsuf
  have hdata : ("/download/" ++ k).data = "/download".data ++ '/' :: k.data := by
    rw [String.data_append]
    rfl
  have hidx : "/index.html".data = '/' :: "index.html".data := rfl
  rw [hdata, hidx] at ht
  have hrev := congrArg List.reverse ht
  simp only [List.reverse_append, List.reverse_cons, List.append_assoc,
    List.singleton_append] at hrev
  have hx : '/' ∉ "index.html".data.reverse := by decide
  have hy : '/' ∉ k.data.reverse := by simpa using hslash
  have := eq_of_slash_split _ _ _ _ hx hy hrev
  have h3 : "index.html".data = k.data := List.reverse_injective this
  exact String.ext h3.symm

/-- The blob of a stored name other than `index.html`, on disk, asked for
without a `Range` or an `If-...` header, is served whole. -/
theorem fileAttachment_served (req : DownloadRequest) (disk : Disk) (filename : String)
    (body : Bytes) (hgood : GoodName req.name) (hidx : req.name ≠ "index.html")
    (hcond : req.conditional = false)
    (hbody : diskRead disk (Join UPLOAD_DIR req.name) = some body) :
    FileAttachment req disk (Join UPLOAD_DIR req.name) filename =
      Response.attachment filename body := by
  have h1 : containsDotDot req.urlPath = false := containsDotDot_goodName _ hgood
  have h2 : hasSuffix req.urlPath "/index.html" = false := by
    cases hs : hasSuffix req.urlPath "/index.html" with
    | false => rfl
    | true => exact absurd (hasSuffix_index _ hgood hs) hidx
  unfold FileAttachment
  simp [h1, h2, isDirectory_join_goodName _ hgood, hbody, hcond]

theorem fileAttachment_ne_fail (req : DownloadRequest) (disk : Disk)
    (path filename msg : String) :
    FileAttachment req disk path filename ≠ Response.fail msg := by
  unfold FileAttachment
  by_cases h1 : containsDotDot req.urlPath = true
  · simp [h1]
  by_cases h2 : hasSuffix req.urlPath "/index.html" = true
  · simp [h1, h2]
  by_cases h3 : isDirectory path = true
  · simp [h1, h2, h3]
  cases h4 : diskRead disk path with
  | none => simp [h1, h2, h3]
  | some body => cases h5 : req.conditional <;> simp [h1, h2, h3]

/-! ## Stored records -/

theorem stored_record (w : World) (hw : Inv w) (name : String) (e : Entry)
    (info : FileInfo) (hget : rdbGet w.rdb name = some e)
    (hdec : UnmarshalToFileInfo e.value = .ok info) :
    e.value = info.Marshal.1 ∧ info.Name = name ∧ GoodRecord info ∧ GoodName name := by
  obtain ⟨info0, h1, h2, h3, h4⟩ := hw name e hget
  rw [h1, unmarshal_marshal] at hdec
  injection hdec with hdec
  subst hdec
  exact ⟨h1, h2, h3, h4⟩

theorem downloadRefused_iff (now : Time) (info : FileInfo) (hg : GoodRecord info) :
    downloadRefused now info = true ↔
      (info.DownloadQuota ≤ 0 ∨
        (info.Lifespan ≠ -1 ∧ now.Unix ≥ info.UploadTimeStamp + info.Lifespan)) := by
  obtain ⟨hts, hl, _, hgood⟩ := hg
  unfold downloadRefused
  rcases hgood with h | ⟨h1, h2⟩
  · simp [h]
  · have hne : info.Lifespan ≠ -1 := by omega
    have hw : wrapInt64 (info.UploadTimeStamp + info.Lifespan) =
        info.UploadTimeStamp + info.Lifespan := by
      apply wrapInt64_eq_self
      unfold IsInt64 at hts ⊢
      omega
    simp [hne, hw]

/-! ## C5: the download gate -/

/-- C5: for a record stored under a name in a reachable state and every
instant `now`, the download is answered with the failure "Expired or quota
exceeded!" exactly when `DownloadQuota <= 0` or (`Lifespan != -1` and
`now >= UploadTimeStamp + Lifespan`), and a download answered so leaves the
Metadata Store and the Blob Store as they were. -/
theorem download_refused_iff (w : World) (hr : Reachable w) (req : DownloadRequest)
    (e : Entry) (info : FileInfo) (now : Time)
    (hget : rdbGet w.rdb req.name = some e)
    (hdec : UnmarshalToFileInfo e.value = .ok info) :
    ((downloadHandler now req w).1 = Response.fail "Expired or quota exceeded!" ↔
      (info.DownloadQuota ≤ 0 ∨
        (info.Lifespan ≠ -1 ∧ now.Unix ≥ info.UploadTimeStamp + info.Lifespan))) ∧
    ((downloadHandler now req w).1 = Response.fail "Expired or quota exceeded!" →
      (downloadHandler now req w).2 = w) := by
  obtain ⟨henc, hname, hgood, _⟩ :=
    stored_record w (inv_of_reachable w hr) req.name e info hget hdec
  rw [download_stored now req w e info hget henc hname, ← downloadRefused_iff now info hgood]
  by_cases href : downloadRefused now info = true
  · simp [href]
  · rw [if_neg href]
    by_cases hq : wrapInt64 (info.DownloadQuota - 1) ≤ 0
    · rw [if_pos hq]
      simp [href, fileAttachment_ne_fail]
    · rw [if_neg hq]
      simp [href, fileAttachment_ne_fail]

/-- C5 on the record of `reqA`, a hundred seconds after its upload. -/
theorem download_refused_iff_witness :
    ((downloadHandler t1 getA worldA).1 =
        Response.fail "Expired or quota exceeded!" ↔
      (infoA.DownloadQuota ≤ 0 ∨
        (infoA.Lifespan ≠ -1 ∧ t1.Unix ≥ infoA.UploadTimeStamp + infoA.Lifespan))) ∧
    ((downloadHandler t1 getA worldA).1 =
        Response.fail "Expired or quota exceeded!" →
      (downloadHandler t1 getA worldA).2 = worldA) :=
  download_refused_iff worldA (Reachable.upload t0 reqA World.init Reachable.init)
    getA entryA infoA t1 (by decide) rfl

/-! ## C6: a download that leaves quota -/

/-- C6: for a record stored under a name in a reachable state that passes
the download checks with `DownloadQuota = n > 1`, the download answers what
`c.FileAttachment` answers for the blob and writes back under the same key,
with `KeepTTL`, the record whose `DownloadQuota` is `n - 1` and whose other
five fields are unchanged; the key keeps the time-to-live it had and the
Blob Store is untouched.  When the blob is on disk, the name is not
`index.html` and the request has no `Range` or `If-...` header, the answer
is the blob. -/
theorem download_decrements (w : World) (hr : Reachable w) (req : DownloadRequest)
    (e : Entry) (info : FileInfo) (now : Time) (n : Int)
    (hget : rdbGet w.rdb req.name = some e)
    (hdec : UnmarshalToFileInfo e.value = .ok info)
    (hpass : ¬(info.DownloadQuota ≤ 0 ∨
        (info.Lifespan ≠ -1 ∧ now.Unix ≥ info.UploadTimeStamp + info.Lifespan)))
    (hn : info.DownloadQuota = n) (hgt : 1 < n) :
    downloadHandler now req w =
        (FileAttachment req w.disk (Join UPLOAD_DIR req.name) info.RawFilename,
          ⟨rdbSet w.rdb req.name
            ({ info with DownloadQuota := n - 1 } : FileInfo).Marshal.1 KeepTTL,
            w.disk, w.pending⟩) ∧
      rdbGet (downloadHandler now req w).2.rdb req.name =
        some ⟨({ info with DownloadQuota := n - 1 } : FileInfo).Marshal.1, e.ttl⟩ ∧
      infoHandler req.name (downloadHandler now req w).2 =
        Response.success { info with DownloadQuota := n - 1 } ∧
      (∀ body, diskRead w.disk (Join UPLOAD_DIR req.name) = some body →
        req.conditional = false → req.name ≠ "index.html" →
        (downloadHandler now req w).1 = Response.attachment info.RawFilename body) := by
  obtain ⟨henc, hname, hgood, hgn⟩ :=
    stored_record w (inv_of_reachable w hr) req.name e info hget hdec
  have href : ¬ downloadRefused now info = true := by
    rw [downloadRefused_iff now info hgood]
    exact hpass
  have hq64 : IsInt64 info.DownloadQuota := hgood.2.2.1
  have hwrap : wrapInt64 (info.DownloadQuota - 1) = n - 1 := by
    rw [hn] at hq64 ⊢
    apply wrapInt64_eq_self
    unfold IsInt64 at hq64 ⊢
    omega
  have hpos : ¬ wrapInt64 (info.DownloadQuota - 1) ≤ 0 := by
    rw [hwrap]
    omega
  have hstep := download_stored now req w e info hget henc hname
  rw [if_neg href, if_neg hpos, hwrap] at hstep
  refine ⟨hstep, ?_, ?_, ?_⟩
  · rw [hstep, rdbSet_keepTTL _ _ _ e hget]
    simp [rdbGet]
  · rw [hstep, rdbSet_keepTTL _ _ _ e hget]
    simp [infoHandler, FetchFileInfo, rdbGet, unmarshal_marshal]
  · intro body hbody hcond hidx
    rw [hstep]
    exact fileAttachment_served req w.disk info.RawFilename body hgn hidx hcond hbody

/-- C6 on the record of `reqThree`, whose quota is 3. -/
theorem download_decrements_witness :
    downloadHandler t1 getA worldThree =
        (FileAttachment getA worldThree.disk (Join UPLOAD_DIR getA.name) infoThree.RawFilename,
          ⟨rdbSet worldThree.rdb getA.name
            ({ infoThree with DownloadQuota := 3 - 1 } : FileInfo).Marshal.1 KeepTTL,
            worldThree.disk, worldThree.pending⟩) ∧
      rdbGet (downloadHandler t1 getA worldThree).2.rdb getA.name =
        some ⟨({ infoThree with DownloadQuota := 3 - 1 } : FileInfo).Marshal.1,
          entryThree.ttl⟩ ∧
      infoHandler getA.name (downloadHandler t1 getA worldThree).2 =
        Response.success { infoThree with DownloadQuota := 3 - 1 } ∧
      (downloadHandler t1 getA worldThree).1 =
        Response.attachment infoThree.RawFilename [104, 105] :=
  have h := download_decrements worldThree
    (Reachable.upload t0 reqThree World.init Reachable.init) getA
    entryThree infoThree t1 3 (by decide) rfl (by decide) (by decide) (by decide)
  ⟨h.1, h.2.1, h.2.2.1, h.2.2.2 [104, 105] (by decide) rfl (by decide)⟩

/-! ## C7: the download that exhausts the quota -/

/-- The download that exhausts the quota of a stored record: the record is
deleted, the answer is what `c.FileAttachment` answers for the blob, and the
blob is removed; afterwards the name has no record and no blob and is not
found.  When the blob is on disk, the name is not `index.html` and the
request has no `Range` or `If-...` header, the answer is the blob. -/
theorem download_exhausts_served (w : World) (hr : Reachable w) (req : DownloadRequest)
    (e : Entry) (info : FileInfo) (now : Time)
    (hget : rdbGet w.rdb req.name = some e)
    (hdec : UnmarshalToFileInfo e.value = .ok info)
    (hpass : ¬(info.DownloadQuota ≤ 0 ∨
        (info.Lifespan ≠ -1 ∧ now.Unix ≥ info.UploadTimeStamp + info.Lifespan)))
    (hone : info.DownloadQuota = 1) :
    downloadHandler now req w =
        (FileAttachment req w.disk (Join UPLOAD_DIR req.name) info.RawFilename,
          ⟨rdbDel w.rdb req.name, DeleteFileFromDisk req.name w.disk, w.pending⟩) ∧
      rdbGet (downloadHandler now req w).2.rdb req.name = none ∧
      diskRead (downloadHandler now req w).2.disk (Join UPLOAD_DIR req.name) = none ∧
      infoHandler req.name (downloadHandler now req w).2 =
        Response.fail "Expired or quota exceeded!" ∧
      (∀ later : Time, downloadHandler later req (downloadHandler now req w).2 =
        (Response.fail "Expired or quota exceeded!", (downloadHandler now req w).2)) ∧
      (∀ body, diskRead w.disk (Join UPLOAD_DIR req.name) = some body →
        req.conditional = false → req.name ≠ "index.html" →
        (downloadHandler now req w).1 = Response.attachment info.RawFilename body) := by
  obtain ⟨henc, hname, hgood, hgn⟩ :=
    stored_record w (inv_of_reachable w hr) req.name e info hget hdec
  have href : ¬ downloadRefused now info = true := by
    rw [downloadRefused_iff now info hgood]
    exact hpass
  have hzero : wrapInt64 (info.DownloadQuota - 1) ≤ 0 := by
    rw [hone]
    decide
  have hstep := download_stored now req w e info hget henc hname
  rw [if_neg href, if_pos hzero] at hstep
  have hgone : rdbGet (downloadHandler now req w).2.rdb req.name = none := by
    rw [hstep]
    exact rdbGet_del_self _ _
  refine ⟨hstep, hgone, ?_, ?_, ?_, ?_⟩
  · rw [hstep]
    exact diskRead_remove_self _ _
  · unfold infoHandler FetchFileInfo
    rw [hgone]
  · intro later
    exact download_missing later req _ hgone
  · intro body hbody hcond hidx
    rw [hstep]
    exact fileAttachment_served req w.disk info.RawFilename body hgn hidx hcond hbody

/-- A record can lose its blob: when a name is uploaded again after its key
has expired in the store and before the subscriber has received the expiry,
the subscriber deletes the new blob; the download then spends the quota and
answers the 404 of a missing file. -/
theorem reupload_loses_blob :
    infoHandler "a" worldReuploaded =
      Response.success ⟨"a", "hi.txt", 1700003700, 3600, 1, 2⟩ ∧
    diskRead worldReuploaded.disk (Join UPLOAD_DIR "a") = none ∧
    (downloadHandler t2 getA worldReuploaded).1 = Response.missingFile ∧
    rdbGet (downloadHandler t2 getA worldReuploaded).2.rdb "a" = none := by
  decide

/-- C7 fails in the code at a record named `index.html`: the name is safe,
the upload stores the record and the blob, and the download that exhausts
the quota deletes the record and removes the blob while `http.ServeFile`,
seeing a URL path that ends in `/index.html`, answers a redirect to `./`
with no body, so the blob is never served. -/
theorem download_index_unserved :
    isSafeName "index.html" = true ∧
    (uploadHandler t0 reqIndex World.init).1 = Response.success infoIndex ∧
    diskRead worldIndex.disk (Join UPLOAD_DIR "index.html") = some [104, 105] ∧
    (downloadHandler t1 getIndex worldIndex).1 = Response.redirect "./" ∧
    rdbGet (downloadHandler t1 getIndex worldIndex).2.rdb "index.html" = none ∧
    diskRead (downloadHandler t1 getIndex worldIndex).2.disk
      (Join UPLOAD_DIR "index.html") = none := by
  decide

/-! ## C8: the quota over a run of downloads -/

theorem not_refused_of_alive (now : Time) (info : FileInfo) (hg : GoodRecord info)
    (hq : 0 < info.DownloadQuota)
    (halive : info.Lifespan = -1 ∨ now.Unix < info.UploadTimeStamp + info.Lifespan) :
    ¬ downloadRefused now info = true := by
  rw [downloadRefused_iff now info hg]
  rintro (h | ⟨h1, h2⟩)
  · omega
  · rcases halive with h3 | h3
    · exact h1 h3
    · omega

theorem storedQuota_of_get (name : String) (w : World) (e : Entry) (info : FileInfo)
    (hget : rdbGet w.rdb name = some e) (henc : e.value = info.Marshal.1) :
    storedQuota name w = some info.DownloadQuota := by
  unfold storedQuota FetchFileInfo
  rw [hget]
  simp [henc, unmarshal_marshal]

theorem storedQuota_of_missing (name : String) (w : World)
    (hget : rdbGet w.rdb name = none) : storedQuota name w = none := by
  unfold storedQuota FetchFileInfo
  rw [hget]

theorem downloadTrace_stored (req : DownloadRequest) (hgn : GoodName req.name)
    (hidx : req.name ≠ "index.html") (hcond : req.conditional = false) (n : Nat) :
    ∀ (w : World) (e : Entry) (info : FileInfo) (body : Bytes) (times : List Time),
      rdbGet w.rdb req.name = some e → e.value = info.Marshal.1 → info.Name = req.name →
      GoodRecord info → info.DownloadQuota = ((n + 1 : Nat) : Int) →
      diskRead w.disk (Join UPLOAD_DIR req.name) = some body →
      times.length = n + 2 →
      (∀ t ∈ times.take (n + 1),
        info.Lifespan = -1 ∨ t.Unix < info.UploadTimeStamp + info.Lifespan) →
      downloadTrace req times w =
        (List.range (n + 1)).reverse.map
            (fun k : Nat => (Response.attachment info.RawFilename body,
              if k = 0 then none else some (k : Int))) ++
          [(Response.fail "Expired or quota exceeded!", none)] := by
  induction n with
  | zero =>
    intro w e info body times hget henc hname hgood hq hbody hlen halive
    obtain ⟨t, t2, rfl⟩ := List.length_eq_two.1 hlen
    have href := not_refused_of_alive t info hgood (by rw [hq]; decide)
      (halive t (by simp))
    have hzero : wrapInt64 (info.DownloadQuota - 1) ≤ 0 := by
      rw [hq]
      decide
    have hstep := download_stored t req w e info hget henc hname
    rw [if_neg href, if_pos hzero,
      fileAttachment_served req w.disk info.RawFilename body hgn hidx hcond hbody] at hstep
    have hgone : rdbGet (downloadHandler t req w).2.rdb req.name = none := by
      rw [hstep]
      exact rdbGet_del_self _ _
    have hnext := download_missing t2 req _ hgone
    simp only [downloadTrace, hnext, storedQuota_of_missing req.name _ hgone]
    rw [hstep]
    simp [List.range_succ]
  | succ m ih =>
    intro w e info body times hget henc hname hgood hq hbody hlen halive
    cases times with
    | nil => simp at hlen
    | cons t ts =>
      have hlen2 : ts.length = m + 2 := by simpa using hlen
      have href := not_refused_of_alive t info hgood (by rw [hq]; omega)
        (halive t (by simp))
      have hq64 : IsInt64 info.DownloadQuota := hgood.2.2.1
      have hwrap : wrapInt64 (info.DownloadQuota - 1) = ((m + 1 : Nat) : Int) := by
        have : info.DownloadQuota - 1 = ((m + 1 : Nat) : Int) := by
          rw [hq]
          push_cast
          omega
        rw [this]
        apply wrapInt64_eq_self
        rw [hq] at hq64
        unfold IsInt64 at hq64 ⊢
        push_cast at hq64 ⊢
        omega
      have hpos : ¬ wrapInt64 (info.DownloadQuota - 1) ≤ 0 := by
        rw [hwrap]
        push_cast
        omega
      have hstep := download_stored t req w e info hget henc hname
      rw [if_neg href, if_neg hpos, hwrap,
        fileAttachment_served req w.disk info.RawFilename body hgn hidx hcond hbody,
        rdbSet_keepTTL _ _ _ e hget] at hstep
      have hget2 : rdbGet (downloadHandler t req w).2.rdb req.name =
          some ⟨({ info with DownloadQuota := ((m + 1 : Nat) : Int) } : FileInfo).Marshal.1,
            e.ttl⟩ := by
        rw [hstep]
        simp [rdbGet]
      have hbody2 : diskRead (downloadHandler t req w).2.disk (Join UPLOAD_DIR req.name) =
          some body := by
        rw [hstep]
        exact hbody
      have hgood2 : GoodRecord
          ({ info with DownloadQuota := ((m + 1 : Nat) : Int) } : FileInfo) := by
        refine ⟨hgood.1, hgood.2.1, ?_, hgood.2.2.2⟩
        rw [← hwrap]
        exact wrapInt64_isInt64 _
      have hrest := ih (downloadHandler t req w).2 _
        ({ info with DownloadQuota := ((m + 1 : Nat) : Int) } : FileInfo) body ts
        hget2 rfl hname hgood2 rfl hbody2 hlen2
        (fun t2 ht2 => halive t2 (by
          rw [List.take_succ_cons]
          exact List.mem_cons_of_mem _ ht2))
      have hsq := storedQuota_of_get req.name _ _ _ hget2 rfl
      simp only [downloadTrace, hrest, hsq]
      rw [hstep]
      rw [List.range_succ (m + 1)]
      simp

/-- After an upload has created a record with `DownloadQuota = q >= 1` under
a name other than `index.html`, the same request without a `Range` or an
`If-...` header, served `q + 1` times in a row at instants at which the
record has not expired by time, is answered `q` times with the blob and then
with the failure "Expired or quota exceeded!"; the quota stored after each
download is `q - 1`, `q - 2`, ... down to 1, then no record at all. -/
theorem quota_run_served (now0 : Time) (up : UploadRequest) (w0 w1 : World)
    (info : FileInfo) (req : DownloadRequest) (q : Nat) (times : List Time)
    (hup : uploadHandler now0 up w0 = (Response.success info, w1))
    (hreq : req.name = info.Name) (hidx : req.name ≠ "index.html")
    (hcond : req.conditional = false)
    (hq : info.DownloadQuota = (q : Int)) (hq1 : 1 ≤ q)
    (hlen : times.length = q + 1)
    (halive : ∀ t ∈ times.take q,
      info.Lifespan = -1 ∨ t.Unix < info.UploadTimeStamp + info.Lifespan) :
    ∃ body : Bytes, (body.length : Int) = info.Size ∧
      downloadTrace req times w1 =
        (List.range q).reverse.map
            (fun k : Nat => (Response.attachment info.RawFilename body,
              if k = 0 then none else some (k : Int))) ++
          [(Response.fail "Expired or quota exceeded!", none)] := by
  obtain ⟨n, rfl⟩ : ∃ n, q = n + 1 := ⟨q - 1, by omega⟩
  obtain ⟨form, hb, hinfo, hgn, hgood, _, _, hw1⟩ := upload_success now0 up w0 w1 info hup
  have hsize : ((form.RawFile.content.length : Nat) : Int) = info.Size := by rw [hinfo]; rfl
  have hname : info.Name = form.Name := by rw [hinfo]; rfl
  have hrn : req.name = form.Name := hreq.trans hname
  refine ⟨form.RawFile.content, hsize, ?_⟩
  exact downloadTrace_stored req (hrn ▸ hgn) hidx hcond n w1
    ⟨info.Marshal.1,
      if expirationNs now0 info ≠ 0 ∧ expirationNs now0 info ≠ KeepTTL
      then some (expireMillis (expirationNs now0 info)) else none⟩
    info form.RawFile.content times (by rw [hw1, hrn]; simp [rdbGet]) rfl hreq.symm hgood hq
    (by rw [hw1, hrn]; simp [diskRead_write]) hlen halive

/-- C8 fails in the code at a record named `index.html`: created by an
upload with a quota of 3 and not expired by time, its first three downloads
are each answered by the redirect of `http.ServeFile` with no body while
the stored quota goes down to 2, to 1 and to no record, and the fourth is
answered with the failure; none of the first three succeeds. -/
theorem quota_run_index_unserved :
    (uploadHandler t0 reqIndexThree World.init).1 = Response.success infoIndexThree ∧
    downloadTrace getIndex [t1, t1, t1, t1] worldIndexThree =
      [(Response.redirect "./", some 2), (Response.redirect "./", some 1),
       (Response.redirect "./", none),
       (Response.fail "Expired or quota exceeded!", none)] := by
  decide

/-! ## C9: upload, then info -/

/-- An upload under a good name that holds no record, of a file within the
size limit, with a lifespan of -1 or of at least 1 whose expiry second,
counted from year 1, fits in `int64`, succeeds, and `GET /info` then returns
the record built from its inputs. -/
theorem upload_then_info (now : Time) (req : UploadRequest) (w : World) (form : UploadForm)
    (hb : ShouldBind req = .ok form) (hname : GoodName form.Name)
    (hnone : rdbGet w.rdb form.Name = none)
    (hsize : form.RawFile.Size ≤ MAX_UPLOAD_SIZE)
    (hL : form.Lifespan = -1 ∨
      (1 ≤ form.Lifespan ∧
        now.Unix + form.Lifespan + 62135596800 ≤ 9223372036854775807)) :
    (uploadHandler now req w).1 = Response.success
        ⟨form.Name, form.RawFile.Filename, now.Unix, form.Lifespan, form.DownloadQuota,
          (form.RawFile.content.length : Int)⟩ ∧
      infoHandler form.Name (uploadHandler now req w).2 = Response.success
        ⟨form.Name, form.RawFile.Filename, now.Unix, form.Lifespan, form.DownloadQuota,
          (form.RawFile.content.length : Int)⟩ := by
  have hexp : ¬(expirationNs now (uploadInfo now form) ≠ 0 ∧
      expirationNs now (uploadInfo now form) ≠ KeepTTL ∧
      expireMillis (expirationNs now (uploadInfo now form)) ≤ 0) := by
    rintro ⟨h0, _, hneg⟩
    rcases hL with h | ⟨h1, h2⟩
    · apply h0
      have h3 : (uploadInfo now form).Lifespan = -1 := h
      unfold expirationNs
      rw [if_pos h3]
    · have hn := now.nsec_lt
      have := expirationNs_of_fit now (uploadInfo now form) rfl h1 h2
      rw [this, expireMillis_nonpos_iff] at hneg
      have hnn : 0 < saturateDuration
          ((uploadInfo now form).Lifespan * 1000000000 - (now.nsec : Int)) := by
        apply saturateDuration_pos
        have : (uploadInfo now form).Lifespan = form.Lifespan := rfl
        rw [this]
        omega
      omega
  have hL2 : form.Lifespan = -1 ∨ 1 ≤ form.Lifespan := by
    rcases hL with h | h
    · exact Or.inl h
    · exact Or.inr h.1
  rw [upload_bound now req w form hb, if_neg (by simp [hname.1]), if_neg (by simp [hL2]),
    if_neg (by simp [hnone]), if_neg (by omega),
    if_neg (by simp [isDirectory_join_goodName _ hname]), if_neg hexp]
  refine ⟨rfl, ?_⟩
  simp [infoHandler, FetchFileInfo, rdbGet, unmarshal_marshal, uploadInfo]

/-- C9 fails in the code at the name `.`: `isSafeName` accepts it, the
stores hold no record of it, the lifespan and the size are valid, and the
upload is answered with the error of `os.Create` on the storage root; no
record is stored and `GET /info` finds nothing. -/
theorem upload_dot_fails :
    isSafeName "." = true ∧
    uploadHandler t0 reqDot World.init =
      (Response.error "Saving uploaded file failed:open upload: is a directory",
        World.init) ∧
    infoHandler "." (uploadHandler t0 reqDot World.init).2 =
      Response.fail "Expired or quota exceeded!" := by
  decide

/-! ## C10: the time-to-live of an upload -/

/-- C10, as stated, fails at an upload instant that is not on a whole
second: the upload `reqA`, with a lifespan of 3600 seconds, a quarter of a
second into its second, hands `SetNX` 3599.75 seconds. -/
theorem expiration_short_of_lifespan :
    (uploadHandler t0 reqA World.init).1 = Response.success infoA ∧
    expirationNs t0 infoA = 3599750000000 ∧
    expirationNs t0 infoA ≠ infoA.Lifespan * 1000000000 ∧
    rdbGet (uploadHandler t0 reqA World.init).2.rdb "a" =
      some ⟨infoA.Marshal.1, some 3599750⟩ := by
  decide

/-- C10, amended: a successful upload stores its record through `SetNX`
with the expiration `expirationNs`; for a lifespan of -1 that is 0 and the
key gets no time-to-live; for a lifespan of at least 1 (and of at most
9223372036 seconds, the whole seconds a `time.Duration` can hold) it is the
time from the upload instant to the whole second `UploadTimeStamp +
Lifespan`, that is the lifespan in nanoseconds less the nanoseconds of the
upload instant within its second, which the key receives in the
milliseconds go-redis sends for it. -/
theorem upload_expiration (now : Time) (req : UploadRequest) (w w2 : World)
    (info : FileInfo) (hup : uploadHandler now req w = (Response.success info, w2)) :
    w2.rdb = (rdbSetNX w.rdb info.Name info.Marshal.1 (expirationNs now info)).2 ∧
    (info.Lifespan = -1 →
      expirationNs now info = 0 ∧
        rdbGet w2.rdb info.Name = some ⟨info.Marshal.1, none⟩) ∧
    (1 ≤ info.Lifespan → info.Lifespan ≤ 9223372036 →
      expirationNs now info = info.Lifespan * 1000000000 - (now.nsec : Int) ∧
        rdbGet w2.rdb info.Name =
          some ⟨info.Marshal.1,
            some (expireMillis (info.Lifespan * 1000000000 - (now.nsec : Int)))⟩) := by
  obtain ⟨form, hb, hinfo, _, hgood, hnone, hfit, hw2⟩ := upload_success now req w w2 info hup
  have hname : info.Name = form.Name := by rw [hinfo]; rfl
  have hts : info.UploadTimeStamp = now.sec := by rw [hinfo]; rfl
  have hn := now.nsec_lt
  have hacc : ¬(expirationNs now info ≠ 0 ∧ expirationNs now info ≠ KeepTTL ∧
      expireMillis (expirationNs now info) ≤ 0) := by
    rintro ⟨h0, _, hneg⟩
    rw [expireMillis_nonpos_iff] at hneg
    rcases hfit with h | ⟨h1, h2⟩
    · apply h0
      unfold expirationNs
      rw [if_pos h]
    · have := expirationNs_of_fit now info hts h1 (by rw [hts]; exact h2)
      rw [this] at hneg
      have := saturateDuration_pos (info.Lifespan * 1000000000 - (now.nsec : Int)) (by omega)
      omega
  refine ⟨?_, ?_, ?_⟩
  · rw [hw2]
    unfold rdbSetNX
    rw [if_neg hacc, hname, hnone]
  · intro hm
    have h0 : expirationNs now info = 0 := by
      unfold expirationNs
      rw [if_pos hm]
    refine ⟨h0, ?_⟩
    rw [hw2, hname, h0]
    simp [rdbGet]
  · intro h1 h2
    have hfit2 : info.UploadTimeStamp + info.Lifespan + 62135596800 ≤
        9223372036854775807 := by
      rcases hfit with h | h
      · omega
      · rw [hts]
        exact h.2
    have hval : expirationNs now info = info.Lifespan * 1000000000 - (now.nsec : Int) := by
      rw [expirationNs_of_fit now info hts h1 hfit2]
      unfold saturateDuration
      rw [if_neg (by omega), if_neg (by omega)]
    refine ⟨hval, ?_⟩
    rw [hw2, hname, hval]
    have hne0 : info.Lifespan * 1000000000 - (now.nsec : Int) ≠ 0 := by omega
    have hne1 : info.Lifespan * 1000000000 - (now.nsec : Int) ≠ KeepTTL := by
      unfold KeepTTL
      omega
    simp [rdbGet, hne0, hne1]

/-- C10, amended, on the upload `reqA`: 3600 seconds less a quarter of a
second, stored as 3599750 milliseconds. -/
theorem upload_expiration_witness :
    expirationNs t0 infoA = infoA.Lifespan * 1000000000 - (t0.nsec : Int) ∧
      rdbGet worldA.rdb infoA.Name =
        some ⟨infoA.Marshal.1,
          some (expireMillis (infoA.Lifespan * 1000000000 - (t0.nsec : Int)))⟩ :=
  (upload_expiration t0 reqA World.init worldA infoA (by decide)).2.2 (by decide) (by decide)

end Sand
